import Mathlib

/-!
Shallow embedding of the valuation-agent regression / valuation engine.

The source is TypeScript; all numeric computation there is on IEEE doubles.
Following the spec's "exact over exact arithmetic" reading, machine reals are
modelled as exact rationals (`ℚ`) except where the source genuinely needs a
transcendental function (`Math.log` / `Math.exp` in the log-linear estimator),
which is modelled over `ℝ` with `Real.log` / `Real.exp`.

Embedded modules:
* `regression.ts`   — OLS, iterative residual trimming, Cook's-distance
  trimming, Huber IRLS, log-linear.
* `dcf.ts`          — fading growth path and DCF projector.
* `filters.ts` (the current eight-argument revision, `src/unnamed/part_001`)
  — universe filter `filterPoints` / `filterMultiples` / `okEps` / `percentile`.
* `valueScore.ts` (`src/unnamed/part_002`) — historical baselines (equal and
  R²-weighted), single-ticker score, percentile rank.
* `peerIndex.ts` (`src/unnamed/part_000`) — composite valuation aggregator.

JavaScript `sort((a,b)=>a-b)` is modelled with `List.mergeSort`;
`Math.sqrt σ² < 1e-12` and `|r|/σ ≤ t` are translated to the equivalent
square-free comparisons `σ² < (1e-12)²` and `r² ≤ t²·σ²` (exact for the
nonnegative thresholds the source uses), keeping every definition computable.
-/

namespace ValuationAgent

/-- The source's `1e-12` near-zero guard. -/
def tiny : ℚ := 1 / 10 ^ 12

/-- `RegressionResult` from `types.ts`: `{slope, intercept, r2, n}`. -/
structure RegressionResult where
  slope : ℚ
  intercept : ℚ
  r2 : ℚ
  n : ℕ
deriving DecidableEq, Repr

/-- The accumulated `sx` of `linearRegression`. -/
def sxOf (pts : List (ℚ × ℚ)) : ℚ := (pts.map (fun p => p.1)).sum

/-- The accumulated `sy` of `linearRegression`. -/
def syOf (pts : List (ℚ × ℚ)) : ℚ := (pts.map (fun p => p.2)).sum

/-- The accumulated `sxy` of `linearRegression`. -/
def sxyOf (pts : List (ℚ × ℚ)) : ℚ := (pts.map (fun p => p.1 * p.2)).sum

/-- The accumulated `sx2` of `linearRegression`. -/
def sx2Of (pts : List (ℚ × ℚ)) : ℚ := (pts.map (fun p => p.1 * p.1)).sum

/-- The accumulated `sy2` of `linearRegression`. -/
def sy2Of (pts : List (ℚ × ℚ)) : ℚ := (pts.map (fun p => p.2 * p.2)).sum

/-- `d = n*sx2 - sx*sx`, the design-matrix determinant. -/
def dOf (pts : List (ℚ × ℚ)) : ℚ :=
  (pts.length : ℚ) * sx2Of pts - sxOf pts * sxOf pts

/-- `slope = (n*sxy - sx*sy) / d`. -/
def slopeOf (pts : List (ℚ × ℚ)) : ℚ :=
  ((pts.length : ℚ) * sxyOf pts - sxOf pts * syOf pts) / dOf pts

/-- `intercept = (sy - slope*sx) / n`. -/
def interceptOf (pts : List (ℚ × ℚ)) : ℚ :=
  (syOf pts - slopeOf pts * sxOf pts) / (pts.length : ℚ)

/-- `sst = sy2 - sy*sy/n` (uncentered total sum of squares). -/
def sstOf (pts : List (ℚ × ℚ)) : ℚ :=
  sy2Of pts - syOf pts * syOf pts / (pts.length : ℚ)

/-- `sse = Σ (y - (slope*x + intercept))²` for the OLS fit. -/
def sseOf (pts : List (ℚ × ℚ)) : ℚ :=
  (pts.map (fun p => (p.2 - (slopeOf pts * p.1 + interceptOf pts)) *
    (p.2 - (slopeOf pts * p.1 + interceptOf pts)))).sum

/-- `linearRegression` (`regression.ts` lines 3–35): closed-form OLS.
Returns `none` for fewer than 3 points or a near-singular design matrix;
`r2 = 1 - SSE/SST`, defined as `0` when `SST ≤ 0`. -/
def linearRegression (pts : List (ℚ × ℚ)) : Option RegressionResult :=
  if pts.length < 3 then none else
  if |dOf pts| < tiny then none else
  some ⟨slopeOf pts, interceptOf pts,
    if sstOf pts > 0 then 1 - sseOf pts / sstOf pts else 0, pts.length⟩

/-- Residuals of a linear fit: `current.map(([x, y]) => y - (slope*x + intercept))`. -/
def residualsOf (pts : List (ℚ × ℚ)) (slope intercept : ℚ) : List ℚ :=
  pts.map (fun p => p.2 - (slope * p.1 + intercept))

/-- Mean of the residual list (`residuals.reduce((s,r) => s+r, 0) / length`). -/
def meanOf (l : List ℚ) : ℚ := l.sum / l.length

/-- Population variance of the residual list. -/
def varianceOf (l : List ℚ) : ℚ :=
  (l.map (fun r => (r - meanOf l) * (r - meanOf l))).sum / l.length

/-- Result of `linearRegressionTrimmed`: a `RegressionResult` plus `nOriginal`. -/
structure TrimmedResult where
  slope : ℚ
  intercept : ℚ
  r2 : ℚ
  n : ℕ
  nOriginal : ℕ
deriving DecidableEq, Repr

/-- The trimming loop of `linearRegressionTrimmed` (`regression.ts` lines 50–66).
`sigma < 1e-12` is expressed as `variance < tiny²` and the keep test
`|rᵢ - mean|/sigma ≤ threshold` as `(rᵢ - mean)² ≤ threshold² · variance`
(equivalent over exact arithmetic for the nonnegative default threshold).
An inner OLS failure is the source's early `return null`. -/
def trimmedLoop (threshold : ℚ) : ℕ → List (ℚ × ℚ) → Option (List (ℚ × ℚ))
  | 0, current => some current
  | fuel + 1, current =>
    match linearRegression current with
    | none => none
    | some reg =>
      let residuals := residualsOf current reg.slope reg.intercept
      if varianceOf residuals < tiny ^ 2 then some current else
      let kept := current.filter (fun p =>
        (p.2 - (reg.slope * p.1 + reg.intercept) - meanOf residuals) ^ 2 ≤
          threshold ^ 2 * varianceOf residuals)
      if kept.length < 3 ∨ kept.length = current.length then some current
      else trimmedLoop threshold fuel kept

/-- `linearRegressionTrimmed` (`regression.ts` lines 41–71); source defaults are
`threshold = 2`, `maxIter = 2`. -/
def linearRegressionTrimmed (threshold : ℚ) (maxIter : ℕ)
    (pts : List (ℚ × ℚ)) : Option TrimmedResult :=
  if pts.length < 3 then none else
  match trimmedLoop threshold maxIter pts with
  | none => none
  | some current =>
    (linearRegression current).map (fun r =>
      ⟨r.slope, r.intercept, r.r2, r.n, pts.length⟩)

/-- `CooksRegressionResult`: regression result plus `nOriginal` and the original
indices of removed points. -/
structure CooksResult where
  slope : ℚ
  intercept : ℚ
  r2 : ℚ
  n : ℕ
  nOriginal : ℕ
  removedIndices : List ℕ
deriving DecidableEq, Repr

/-- Mean squared error with `p = 2` parameters:
`residuals.reduce((s,r) => s + r*r, 0) / (n - p)`. -/
def mseOf (pts : List (ℚ × ℚ)) (slope intercept : ℚ) : ℚ :=
  ((residualsOf pts slope intercept).map (fun r => r * r)).sum /
    ((pts.length : ℚ) - 2)

/-- `xMean` of the current subset. -/
def xMeanOf (pts : List (ℚ × ℚ)) : ℚ :=
  (pts.map (fun p => p.1)).sum / pts.length

/-- `ssX = Σ (x_j - x̄)²`, the leverage denominator. -/
def ssxOf (pts : List (ℚ × ℚ)) : ℚ :=
  (pts.map (fun p => (p.1 - xMeanOf pts) * (p.1 - xMeanOf pts))).sum

/-- Per-point keep decision in the Cook's loop (`regression.ts` lines 112–121):
a point is kept iff its leverage denominator is not near-singular and its
Cook's distance is at most the threshold (`continue` drops the point). -/
def cooksKeep (pts : List (ℚ × ℚ)) (slope intercept threshold : ℚ)
    (p : ℚ × ℚ) : Bool :=
  let h := 1 / (pts.length : ℚ) + (p.1 - xMeanOf pts) ^ 2 / ssxOf pts
  let denom := 1 - h
  if |denom| < tiny then false
  else decide (((p.2 - (slope * p.1 + intercept)) ^ 2 /
      (2 * mseOf pts slope intercept)) * (h / (denom * denom)) ≤ threshold)

/-- The iteration of `linearRegressionCooks` (`regression.ts` lines 92–126),
carrying the parallel arrays `current` and `currentIdx`.  When the fit's MSE
or the leverage denominator is below `1e-12` the source `break`s, returning
the current subset unchanged. -/
def cooksLoop (thresholdMultiplier : ℚ) :
    ℕ → List (ℚ × ℚ) → List ℕ → Option (List (ℚ × ℚ) × List ℕ)
  | 0, current, currentIdx => some (current, currentIdx)
  | fuel + 1, current, currentIdx =>
    match linearRegression current with
    | none => none
    | some reg =>
      if mseOf current reg.slope reg.intercept < tiny then
        some (current, currentIdx)
      else if ssxOf current < tiny then some (current, currentIdx)
      else
        let threshold := thresholdMultiplier * (4 / (current.length : ℚ))
        let keptPairs := (current.zip currentIdx).filter (fun pi =>
          cooksKeep current reg.slope reg.intercept threshold pi.1)
        let kept := keptPairs.map (fun pi => pi.1)
        let keptIdx := keptPairs.map (fun pi => pi.2)
        if kept.length < 3 ∨ kept.length = current.length then
          some (current, currentIdx)
        else cooksLoop thresholdMultiplier fuel kept keptIdx

/-- `linearRegressionCooks` (`regression.ts` lines 80–135); source defaults are
`thresholdMultiplier = 1`, `maxIter = 2`. -/
def linearRegressionCooks (thresholdMultiplier : ℚ) (maxIter : ℕ)
    (pts : List (ℚ × ℚ)) : Option CooksResult :=
  if pts.length < 3 then none else
  match cooksLoop thresholdMultiplier maxIter pts (List.range pts.length) with
  | none => none
  | some (current, currentIdx) =>
    (linearRegression current).map (fun r =>
      ⟨r.slope, r.intercept, r.r2, r.n, pts.length,
        (List.range pts.length).filter (fun i => ¬ i ∈ currentIdx)⟩)

/-- Median of the already-sorted list of absolute residuals
(`regression.ts` lines 165–168); indexing follows the source exactly. -/
def medianOfSorted (l : List ℚ) : ℚ :=
  if l.length % 2 = 0 then
    (l.getD (l.length / 2 - 1) 0 + l.getD (l.length / 2) 0) / 2
  else l.getD (l.length / 2) 0

/-- The MAD-based scale estimate `median(|residual|) / 0.6745`
(`regression.ts` lines 163–169), sorting with JS `sort((a,b) => a-b)`. -/
def scaleOf (residuals : List ℚ) : ℚ :=
  medianOfSorted ((residuals.map (fun r => |r|)).mergeSort (fun a b => a ≤ b)) /
    (6745 / 10000)

/-- One Huber IRLS pass state: the loop of `linearRegressionRobust`
(`regression.ts` lines 158–200).  Weights are recomputed from scratch each
iteration, so the state is just the current coefficients.  A near-zero MAD
scale `break`s; a near-singular weighted design matrix is the source's
`return null`. -/
def huberLoop (k tol : ℚ) (pts : List (ℚ × ℚ)) :
    ℕ → ℚ → ℚ → Option (ℚ × ℚ)
  | 0, slope, intercept => some (slope, intercept)
  | fuel + 1, slope, intercept =>
    let residuals := residualsOf pts slope intercept
    if scaleOf residuals < tiny then some (slope, intercept) else
    let w : ℚ × ℚ → ℚ := fun p =>
      let u := |p.2 - (slope * p.1 + intercept)| / scaleOf residuals
      if u ≤ k then 1 else k / u
    let wsum := (pts.map w).sum
    let wsx := (pts.map (fun p => w p * p.1)).sum
    let wsy := (pts.map (fun p => w p * p.2)).sum
    let wsxy := (pts.map (fun p => w p * p.1 * p.2)).sum
    let wsx2 := (pts.map (fun p => w p * p.1 * p.1)).sum
    let wd := wsum * wsx2 - wsx * wsx
    if |wd| < tiny then none else
    let newSlope := (wsum * wsxy - wsx * wsy) / wd
    let newIntercept := (wsy - newSlope * wsx) / wsum
    if |newSlope - slope| + |newIntercept - intercept| < tol then
      some (newSlope, newIntercept)
    else huberLoop k tol pts fuel newSlope newIntercept

/-- `linearRegressionRobust` (`regression.ts` lines 141–217); source defaults
are `k = 1.345`, `maxIter = 50`, `tol = 1e-6`.  Never removes points: `n` is
the input length; final R² is unweighted on the original scale. -/
def linearRegressionRobust (k : ℚ) (maxIter : ℕ) (tol : ℚ)
    (pts : List (ℚ × ℚ)) : Option RegressionResult :=
  if pts.length < 3 then none else
  match linearRegression pts with
  | none => none
  | some init =>
    match huberLoop k tol pts maxIter init.slope init.intercept with
    | none => none
    | some (slope, intercept) =>
      let meanY := (pts.map (fun p => p.2)).sum / pts.length
      let sst := (pts.map (fun p => (p.2 - meanY) * (p.2 - meanY))).sum
      let sse := (pts.map (fun p => (p.2 - (slope * p.1 + intercept)) *
        (p.2 - (slope * p.1 + intercept)))).sum
      some ⟨slope, intercept, if sst > 0 then 1 - sse / sst else 0,
        pts.length⟩

/-- `RegressionResult` over the reals, for the log-linear estimator whose
log/exp steps are genuinely real-valued. -/
structure RegressionResultR where
  slope : ℝ
  intercept : ℝ
  r2 : ℝ
  n : ℕ

/-- The real-valued instance of `linearRegression` used by
`logLinearRegression` on the `(x, ln y)` points. -/
noncomputable def linearRegressionR (pts : List (ℝ × ℝ)) :
    Option RegressionResultR :=
  let n := pts.length
  if n < 3 then none else
  let sx := (pts.map (fun p => p.1)).sum
  let sy := (pts.map (fun p => p.2)).sum
  let sxy := (pts.map (fun p => p.1 * p.2)).sum
  let sx2 := (pts.map (fun p => p.1 * p.1)).sum
  let sy2 := (pts.map (fun p => p.2 * p.2)).sum
  let d := (n : ℝ) * sx2 - sx * sx
  if |d| < (tiny : ℝ) then none else
  let slope := ((n : ℝ) * sxy - sx * sy) / d
  let intercept := (sy - slope * sx) / n
  let sst := sy2 - sy * sy / n
  let sse := (pts.map (fun p => (p.2 - (slope * p.1 + intercept)) *
    (p.2 - (slope * p.1 + intercept)))).sum
  some ⟨slope, intercept, if sst > 0 then 1 - sse / sst else 0, n⟩

/-- Result of `logLinearRegression`: log-space slope/intercept duplicated into
`slope`/`intercept`, R² computed on the original scale. -/
structure LogLinResult where
  slope : ℝ
  intercept : ℝ
  logSlope : ℝ
  logIntercept : ℝ
  r2 : ℝ
  n : ℕ

/-- `logLinearRegression` (`regression.ts` lines 224–255): filters to `y > 0`,
fits OLS on `(x, ln y)`, reports the log-space coefficients, and computes R²
by comparing `exp(logIntercept + logSlope·x)` to the actual `y`. -/
noncomputable def logLinearRegression (pts : List (ℝ × ℝ)) :
    Option LogLinResult :=
  let valid := pts.filter (fun p => 0 < p.2)
  if valid.length < 3 then none else
  let logPts := valid.map (fun p => (p.1, Real.log p.2))
  match linearRegressionR logPts with
  | none => none
  | some logReg =>
    let meanY := (valid.map (fun p => p.2)).sum / valid.length
    let sst := (valid.map (fun p => (p.2 - meanY) * (p.2 - meanY))).sum
    let sse := (valid.map (fun p =>
      (p.2 - Real.exp (logReg.intercept + logReg.slope * p.1)) *
      (p.2 - Real.exp (logReg.intercept + logReg.slope * p.1)))).sum
    some ⟨logReg.slope, logReg.intercept, logReg.slope, logReg.intercept,
      if sst > 0 then 1 - sse / sst else 0, valid.length⟩

/-! ## DCF engine (`dcf.ts`) -/

/-- `DcfInputs` (`dcf.ts` lines 3–11).  `projectionYears` is a whole number of
years (the source loop `for (y = 1; y <= projectionYears; y++)` only ever uses
integral values). -/
structure DcfInputs where
  forwardEps : ℚ
  currentPe : ℚ
  epsGrowth : ℚ
  discountRate : ℚ
  terminalGrowth : ℚ
  projectionYears : ℕ
  fadePeriod : ℚ
deriving DecidableEq, Repr

/-- One row of the projection table (`DcfYearProjection`). -/
structure DcfYearProjection where
  year : ℕ
  growthRate : ℚ
  eps : ℚ
  discountFactor : ℚ
  presentValue : ℚ
deriving DecidableEq, Repr

/-- `DcfResult` (`dcf.ts` lines 21–32). -/
structure DcfResult where
  projections : List DcfYearProjection
  sumPvEps : ℚ
  terminalEps : ℚ
  terminalValue : ℚ
  pvTerminalValue : ℚ
  totalPvPerShare : ℚ
  impliedPe : ℚ
  currentPe : ℚ
  deviationPct : ℚ
  terminalValuePct : ℚ
deriving DecidableEq, Repr

/-- `fadeGrowthRate` (`dcf.ts` lines 41–52): linear interpolation from
`initialGrowth` to `terminalGrowth` over the fade period. -/
def fadeGrowthRate (year initialGrowth terminalGrowth fadePeriod : ℚ) : ℚ :=
  if fadePeriod ≤ 0 then terminalGrowth
  else if year ≤ 0 then initialGrowth
  else if year ≥ fadePeriod then terminalGrowth
  else
    let t := year / fadePeriod
    initialGrowth * (1 - t) + terminalGrowth * t

/-- The projection loop of `computeDcf` (`dcf.ts` lines 67–81): after `y`
years, returns `(eps, sumPvEps, projections)`. -/
def dcfLoop (inputs : DcfInputs) : ℕ → ℚ × ℚ × List DcfYearProjection
  | 0 => (inputs.forwardEps, 0, [])
  | y + 1 =>
    let s := dcfLoop inputs y
    let growthRate := fadeGrowthRate ((y : ℚ) + 1) inputs.epsGrowth
      inputs.terminalGrowth inputs.fadePeriod
    let eps := s.1 * (1 + growthRate)
    let discountFactor := 1 / (1 + inputs.discountRate) ^ (y + 1)
    let presentValue := eps * discountFactor
    (eps, s.2.1 + presentValue,
      s.2.2 ++ [⟨y + 1, growthRate, eps, discountFactor, presentValue⟩])

/-- The EPS level after `y` projection years.  It reads only the growth
fields of the inputs — never the discount rate — and satisfies
`(dcfLoop inputs y).1 = epsAt inputs y`. -/
def epsAt (inputs : DcfInputs) : ℕ → ℚ
  | 0 => inputs.forwardEps
  | y + 1 => epsAt inputs y * (1 + fadeGrowthRate ((y : ℚ) + 1)
      inputs.epsGrowth inputs.terminalGrowth inputs.fadePeriod)

/-- `computeDcf` (`dcf.ts` lines 55–105): validates inputs, projects EPS under
the fading growth path, adds a Gordon-growth terminal value, and derives the
implied P/E.  All failure is the explicit `none`; the embedding is a total
function (the source likewise never throws on validated inputs). -/
def computeDcf (inputs : DcfInputs) : Option DcfResult :=
  if inputs.forwardEps ≤ 0 then none else
  if inputs.currentPe ≤ 0 then none else
  if inputs.discountRate ≤ inputs.terminalGrowth then none else
  let s := dcfLoop inputs inputs.projectionYears
  let terminalEps := s.1 * (1 + inputs.terminalGrowth)
  let terminalValue := terminalEps /
    (inputs.discountRate - inputs.terminalGrowth)
  let pvTerminalValue := terminalValue /
    (1 + inputs.discountRate) ^ inputs.projectionYears
  let totalPvPerShare := s.2.1 + pvTerminalValue
  let impliedPe := totalPvPerShare / inputs.forwardEps
  some ⟨s.2.2, s.2.1, terminalEps, terminalValue, pvTerminalValue,
    totalPvPerShare, impliedPe, inputs.currentPe,
    (impliedPe - inputs.currentPe) / inputs.currentPe * 100,
    pvTerminalValue / totalPvPerShare * 100⟩

/-! ## Data model and universe filter (`types.ts`, `filters.ts`) -/

/-- `TickerMetrics` (`types.ts`): six parallel per-date series, `null` = no
data.  JavaScript out-of-range indexing yields `undefined`, which the source
treats exactly like `null`; the embedding reads an index with `getv` below. -/
structure TickerMetrics where
  er : List (Option ℚ)
  eg : List (Option ℚ)
  pe : List (Option ℚ)
  rg : List (Option ℚ)
  xg : List (Option ℚ)
  fe : List (Option ℚ)
deriving DecidableEq, Repr

/-- Read `series[dateIndex]`, with JS out-of-range ⇒ `undefined` ⇒ missing. -/
def getv (l : List (Option ℚ)) (i : ℕ) : Option ℚ :=
  l.getD i none

/-- `DashboardData` restricted to the fields the engine reads:
`dates`, `tickers`, and the per-ticker metrics map `fm` (a ticker absent from
the record maps to `none`). -/
structure DashboardData where
  dates : List String
  tickers : List String
  fm : String → Option TickerMetrics

/-- `MetricType`. -/
inductive MetricType where
  | evRev
  | evGP
  | pEPS
deriving DecidableEq, Repr

/-- `MULTIPLE_KEYS`: the multiple series for a metric. -/
def multipleSeries (t : MetricType) (d : TickerMetrics) : List (Option ℚ) :=
  match t with
  | .evRev => d.er
  | .evGP => d.eg
  | .pEPS => d.pe

/-- `GROWTH_KEYS`: the growth series for a metric. -/
def growthSeries (t : MetricType) (d : TickerMetrics) : List (Option ℚ) :=
  match t with
  | .evRev => d.rg
  | .evGP => d.rg
  | .pEPS => d.xg

/-- The data-entry cap on each metric's multiple (`filters.ts`:
EV/Revenue > 80, EV/GrossProfit > 120, Price/EPS > 200 are dropped). -/
def capOf (t : MetricType) : ℚ :=
  match t with
  | .evRev => 80
  | .evGP => 120
  | .pEPS => 200

/-- `okEps` (`filters.ts`, current revision): Price/EPS usability gate.
In the source `data.fm[ticker]` is only dereferenced by callers that already
checked it exists; a missing ticker is mapped to `false` here (the JS would
throw, but the path is unreachable from the embedded callers). -/
def okEps (data : DashboardData) (ticker : String) (dateIndex : ℕ) : Bool :=
  match data.fm ticker with
  | none => false
  | some d =>
    match getv d.fe dateIndex, getv d.xg dateIndex with
    | some fe, some xg =>
      if fe ≤ 1 / 2 then false
      else if xg ≤ -(3 / 4) then false
      else if xg > 2 then false
      else true
    | _, _ => false

/-- `ScatterPoint`: growth in percent, multiple, ticker. -/
structure ScatterPoint where
  x : ℚ
  y : ℚ
  t : String
deriving DecidableEq, Repr

/-- The revenue-growth bound check shared by `filterPoints` and
`filterMultiples` ("always applied" when `rg` is present; a missing `rg`
skips the bound). -/
def rgBoundOk (d : TickerMetrics) (dateIndex : ℕ)
    (revGrMin revGrMax : Option ℚ) : Bool :=
  match getv d.rg dateIndex with
  | none => true
  | some rg =>
    let rgPct := rg * 100
    decide (¬ (∃ lo ∈ revGrMin, rgPct < lo) ∧ ¬ (∃ hi ∈ revGrMax, rgPct > hi))

/-- The EPS-growth bound check shared by `filterPoints` and
`filterMultiples`. -/
def xgBoundOk (d : TickerMetrics) (dateIndex : ℕ)
    (epsGrMin epsGrMax : Option ℚ) : Bool :=
  match getv d.xg dateIndex with
  | none => true
  | some xg =>
    let xgPct := xg * 100
    decide (¬ (∃ lo ∈ epsGrMin, xgPct < lo) ∧ ¬ (∃ hi ∈ epsGrMax, xgPct > hi))

/-- The body of the `filterPoints` per-ticker loop: the produced point, or
`none` when any `continue` fires.  Guard order follows the source. -/
def pointFor (data : DashboardData) (type : MetricType) (dateIndex : ℕ)
    (revGrMin revGrMax epsGrMin epsGrMax : Option ℚ) (t : String) :
    Option ScatterPoint :=
  match data.fm t with
  | none => none
  | some d =>
    match getv (multipleSeries type d) dateIndex,
        getv (growthSeries type d) dateIndex with
    | some m, some g =>
      if type = .pEPS ∧ ¬ okEps data t dateIndex then none
      else if type = .pEPS ∧ m > 200 then none
      else if type = .evRev ∧ m > 80 then none
      else if type = .evGP ∧ m > 120 then none
      else if rgBoundOk d dateIndex revGrMin revGrMax &&
          xgBoundOk d dateIndex epsGrMin epsGrMax then some ⟨g * 100, m, t⟩
      else none
    | _, _ => none

/-- `filterPoints` (`filters.ts`, current revision, lines 36–80): ordered list
of observations for one metric at one date. -/
def filterPoints (data : DashboardData) (type : MetricType) (dateIndex : ℕ)
    (tickers : List String) (revGrMin revGrMax epsGrMin epsGrMax : Option ℚ) :
    List ScatterPoint :=
  tickers.filterMap (pointFor data type dateIndex revGrMin revGrMax
    epsGrMin epsGrMax)

/-- The body of the `filterMultiples` per-ticker loop.  Unlike `pointFor` it
never reads the metric's growth value, and EV-based metrics additionally
require the multiple to be nonnegative. -/
def valueFor (data : DashboardData) (type : MetricType) (dateIndex : ℕ)
    (revGrMin revGrMax epsGrMin epsGrMax : Option ℚ) (t : String) :
    Option ℚ :=
  match data.fm t with
  | none => none
  | some d =>
    match getv (multipleSeries type d) dateIndex with
    | none => none
    | some m =>
      if type = .pEPS ∧ ¬ okEps data t dateIndex then none
      else if type = .pEPS ∧ m > 200 then none
      else if type = .evRev ∧ (m > 80 ∨ m < 0) then none
      else if type = .evGP ∧ (m > 120 ∨ m < 0) then none
      else if rgBoundOk d dateIndex revGrMin revGrMax &&
          xgBoundOk d dateIndex epsGrMin epsGrMax then some m
      else none

/-- `filterMultiples` (`filters.ts`, current revision, lines 82–123). -/
def filterMultiples (data : DashboardData) (type : MetricType) (dateIndex : ℕ)
    (tickers : List String) (revGrMin revGrMax epsGrMin epsGrMax : Option ℚ) :
    List ℚ :=
  tickers.filterMap (valueFor data type dateIndex revGrMin revGrMax
    epsGrMin epsGrMax)

/-- `percentile(sorted, p)` (`filters.ts` lines 125–132): linear interpolation
between order statistics at index `i = (n-1)·p`. -/
def percentile (sorted : List ℚ) (p : ℚ) : ℚ :=
  if sorted.length = 0 then 0
  else if sorted.length = 1 then sorted.getD 0 0
  else
    let i := ((sorted.length : ℚ) - 1) * p
    let lo := ⌊i⌋.toNat
    let hi := ⌈i⌉.toNat
    sorted.getD lo 0 + (sorted.getD hi 0 - sorted.getD lo 0) * (i - ⌊i⌋)

/-! ## Historical baselines and scoring (`valueScore.ts`) -/

/-- `HistoricalBaseline`. -/
structure HistoricalBaseline where
  avgSlope : ℚ
  avgIntercept : ℚ
  periodCount : ℕ
  avgR2 : ℚ
  avgN : ℚ
deriving DecidableEq, Repr

/-- `parseInt(dates[di].slice(0, 4), 10) === excludeYear`.  JS `parseInt`
parses the maximal digit prefix; for the engine's `YYYY-…` date strings this
coincides with parsing the four leading characters. -/
def yearExcluded (excludeYear : Option ℤ) (date : String) : Bool :=
  match excludeYear with
  | none => false
  | some y => (date.take 4).toInt? = some y

/-- The per-period fit both baseline aggregators perform: universe-filter the
date, then trimmed OLS with the source defaults. -/
def periodFit (data : DashboardData) (type : MetricType)
    (activeTickers : List String)
    (revGrMin revGrMax epsGrMin epsGrMax : Option ℚ) (di : ℕ) :
    Option TrimmedResult :=
  linearRegressionTrimmed 2 2
    ((filterPoints data type di activeTickers revGrMin revGrMax epsGrMin
      epsGrMax).map (fun p => (p.x, p.y)))

/-- `computeHistoricalBaseline` (`valueScore.ts` lines 25–70): equal-weight
arithmetic mean of slope/intercept/R²/n over every period with a successful
fit; `none` when no period fit. -/
def computeHistoricalBaseline (data : DashboardData) (type : MetricType)
    (activeTickers : List String)
    (revGrMin revGrMax epsGrMin epsGrMax : Option ℚ)
    (excludeYear : Option ℤ) : Option HistoricalBaseline :=
  let fits := (List.range data.dates.length).filterMap (fun di =>
    if yearExcluded excludeYear (data.dates.getD di "") then none
    else periodFit data type activeTickers revGrMin revGrMax epsGrMin
      epsGrMax di)
  if fits.length < 1 then none else
  some ⟨(fits.map (fun r => r.slope)).sum / fits.length,
    (fits.map (fun r => r.intercept)).sum / fits.length,
    fits.length,
    (fits.map (fun r => r.r2)).sum / fits.length,
    (fits.map (fun r => (r.n : ℚ))).sum / fits.length⟩

/-- `computeHistoricalBaselineWeighted` (`valueScore.ts` lines 357–402):
periods whose fit failed or has `r2 ≤ 0` are skipped; slope/intercept are
weighted by R²; `none` when no period survives or the total weight is not
positive. -/
def computeHistoricalBaselineWeighted (data : DashboardData)
    (type : MetricType) (activeTickers : List String)
    (revGrMin revGrMax epsGrMin epsGrMax : Option ℚ)
    (excludeYear : Option ℤ) : Option HistoricalBaseline :=
  let periods := (List.range data.dates.length).filterMap (fun di =>
    if yearExcluded excludeYear (data.dates.getD di "") then none
    else match periodFit data type activeTickers revGrMin revGrMax epsGrMin
      epsGrMax di with
    | none => none
    | some r => if r.r2 ≤ 0 then none else some r)
  if periods.length < 1 then none else
  let totalWeight := (periods.map (fun r => r.r2)).sum
  if totalWeight ≤ 0 then none else
  some ⟨(periods.map (fun r => r.slope * r.r2)).sum / totalWeight,
    (periods.map (fun r => r.intercept * r.r2)).sum / totalWeight,
    periods.length,
    (periods.map (fun r => r.r2)).sum / periods.length,
    (periods.map (fun r => (r.n : ℚ))).sum / periods.length⟩

/-- `SingleTickerScore`. -/
structure SingleTickerScore where
  growth : ℚ
  actual : ℚ
  predicted : ℚ
  pctDiff : ℚ
deriving DecidableEq, Repr

/-- `computeSingleTickerScore` (`valueScore.ts` lines 115–151): scores one
ticker against a baseline, applying the metric-specific validity and cap
guards before predicting. -/
def computeSingleTickerScore (data : DashboardData) (ticker : String)
    (type : MetricType) (dateIndex : ℕ) (baseline : HistoricalBaseline) :
    Option SingleTickerScore :=
  match data.fm ticker with
  | none => none
  | some d =>
    match getv (multipleSeries type d) dateIndex,
        getv (growthSeries type d) dateIndex with
    | some m, some g =>
      match getv d.fe dateIndex with
      | none => none
      | some fe =>
        if fe ≤ 0 then none
        else if (type = .evRev ∨ type = .evGP) ∧ (g < 0 ∨ g > 1 / 2) then none
        else if type = .pEPS ∧ (¬ okEps data ticker dateIndex ∨ m > 200) then
          none
        else if type = .evRev ∧ m > 80 then none
        else if type = .evGP ∧ m > 120 then none
        else
          let gPct := g * 100
          let predicted := baseline.avgSlope * gPct + baseline.avgIntercept
          if predicted ≤ 0 then none
          else some ⟨gPct, m, predicted, (m - predicted) / predicted * 100⟩
    | _, _ => none

/-- `DeviationPoint`: one date's deviation, `null` when unavailable. -/
structure DeviationPoint where
  date : String
  pctDiff : Option ℚ
deriving DecidableEq, Repr

/-- `PercentileResult`. -/
structure PercentileResult where
  currentDeviation : ℚ
  percentile : ℚ
  median : ℚ
  p10 : ℚ
  p90 : ℚ
  sampleCount : ℕ
deriving DecidableEq, Repr

/-- `computePercentileRank` (`valueScore.ts` lines 323–351): requires a
non-null deviation at the reference date and at least 3 non-null values;
percentile rank is the fraction of non-null deviations `≤` the current one. -/
def computePercentileRank (deviationSeries : List DeviationPoint)
    (currentDateIndex : ℕ) : Option PercentileResult :=
  match deviationSeries.get? currentDateIndex with
  | none => none
  | some currentPoint =>
    match currentPoint.pctDiff with
    | none => none
    | some currentDev =>
      let values := deviationSeries.filterMap (fun p => p.pctDiff)
      if values.length < 3 then none else
      let sorted := values.mergeSort (fun a b => a ≤ b)
      let belowOrEqual := (sorted.filter (fun v => v ≤ currentDev)).length
      some ⟨currentDev, ((belowOrEqual : ℚ) / sorted.length) * 100,
        percentile sorted (1 / 2), percentile sorted (1 / 10),
        percentile sorted (9 / 10), sorted.length⟩

/-! ## Peer composite valuation (`src/unnamed/part_000`) -/

/-- `IndexRegressionPrediction`.  The regression field carries the
trimmed-OLS result for the index's full membership. -/
structure IndexRegressionPrediction where
  indexKey : String
  indexTickerCount : ℕ
  regression : Option TrimmedResult
  impliedMultiple : Option ℚ
deriving DecidableEq, Repr

/-- `computeCompositeValuation` (`part_000` lines 88–105): keeps predictions
with a successful regression and a positive implied multiple, then averages
the implied multiples weighted by raw R² (whatever its sign); `none` when
nothing qualifies or the accumulated weight is not positive. -/
def computeCompositeValuation (regressions : List IndexRegressionPrediction) :
    Option ℚ :=
  let valid := regressions.filter (fun r =>
    r.regression.isSome && decide (∃ im ∈ r.impliedMultiple, im > 0))
  if valid.length = 0 then none else
  let totalWeight := (valid.map (fun r =>
    (r.regression.map (fun g => g.r2)).getD 0)).sum
  let weightedSum := (valid.map (fun r =>
    (r.impliedMultiple.getD 0) * (r.regression.map (fun g => g.r2)).getD 0)).sum
  if totalWeight > 0 then some (weightedSum / totalWeight) else none

/-- Modelled from the spec's words for claim C1 (§4.6 with the §4.3 weighting
rule): an index qualifies iff its regression succeeded with *positive* R² and
its implied multiple is positive; qualifying indices are R²-weight averaged;
`none` when no index qualifies.  This is the claim's reading, to be compared
with `computeCompositeValuation` above. -/
def compositeValuationClaim (regressions : List IndexRegressionPrediction) :
    Option ℚ :=
  let qual := regressions.filter (fun r =>
    decide (∃ g ∈ r.regression, g.r2 > 0) &&
      decide (∃ im ∈ r.impliedMultiple, im > 0))
  if qual.length = 0 then none else
  some ((qual.map (fun r =>
      (r.impliedMultiple.getD 0) * (r.regression.map (fun g => g.r2)).getD 0)).sum /
    (qual.map (fun r => (r.regression.map (fun g => g.r2)).getD 0)).sum)

/-! ## Concrete datasets used to instantiate the theorems -/

/-- A metrics row with every series absent except the given EV/Revenue
multiple and revenue growth. -/
def evRevRow (er rg : Option ℚ) : TickerMetrics :=
  ⟨[er], [], [], [rg], [], []⟩

/-- Three tickers whose EV/Revenue multiples all equal 1 (a perfect zero-slope
cross-section, so the per-period trimmed fit succeeds with R² = 0). -/
def dataFlat : DashboardData :=
  ⟨["2020-01-31"], ["A", "B", "C"], fun t =>
    if t = "A" then some (evRevRow (some 1) (some 0))
    else if t = "B" then some (evRevRow (some 1) (some (1 / 100)))
    else if t = "C" then some (evRevRow (some 1) (some (2 / 100)))
    else none⟩

/-- One ticker with an EV/Revenue multiple but *no* revenue-growth value. -/
def dataNoGrowth : DashboardData :=
  ⟨["2020-01-31"], ["A"], fun t =>
    if t = "A" then some (evRevRow (some 5) none) else none⟩

/-- One ticker with Price/EPS data only: multiple 10, EPS growth 3 %, forward
EPS 1. -/
def dataEps : DashboardData :=
  ⟨["2020-01-31"], ["A"], fun t =>
    if t = "A" then some ⟨[], [], [some 10], [], [some (3 / 100)], [some 1]⟩
    else none⟩

/-- The source's default DCF base case with a variable discount rate
(`spec.md` §8: `terminalGrowth = 0.03, forwardEps = 5, currentPe = 20,
epsGrowth = 0.15, projectionYears = 10, fadePeriod = 5`). -/
def baseDcf (discountRate : ℚ) : DcfInputs :=
  ⟨5, 20, 15 / 100, discountRate, 3 / 100, 10, 5⟩

/-! ## Arithmetic helper lemmas -/

theorem sum_map_quad (l : List ℚ) (A B C : ℚ) :
    (l.map (fun y => A * (y * y) + B * y + C)).sum
      = A * (l.map (fun y => y * y)).sum + B * l.sum + l.length * C := by
  induction l with
  | nil => simp
  | cons a t ih => simp [ih]; ring

theorem sum_map_quad_fst (l : List (ℚ × ℚ)) (A B C : ℚ) :
    (l.map (fun p => A * (p.1 * p.1) + B * p.1 + C)).sum
      = A * (l.map (fun p => p.1 * p.1)).sum + B * (l.map (fun p => p.1)).sum
        + l.length * C := by
  induction l with
  | nil => simp
  | cons a t ih => simp [ih]; ring

theorem getD_zero_of_all_zero (l : List ℚ) (h : ∀ x ∈ l, x = 0) (i : ℕ) :
    l.getD i 0 = 0 := by
  rcases Nat.lt_or_ge i l.length with hi | hi
  · rw [List.getD_eq_getElem l 0 hi]
    exact h _ (l.getElem_mem hi)
  · exact List.getD_eq_default l 0 hi

theorem length_cast_ne_zero (l : List ℚ) (h : l ≠ []) :
    (l.length : ℚ) ≠ 0 :=
  Nat.cast_ne_zero.mpr (fun hl => h (List.length_eq_zero.mp hl))

/-- `sy2 - sy²/n` equals the centered sum of squares. -/
theorem sst_centered (l : List ℚ) (h : l ≠ []) :
    (l.map (fun y => y * y)).sum - l.sum * l.sum / l.length
      = (l.map (fun y => (y - meanOf l) * (y - meanOf l))).sum := by
  have hn := length_cast_ne_zero l h
  have hcong : ∀ y ∈ l, (y - meanOf l) * (y - meanOf l)
      = 1 * (y * y) + (-2 * meanOf l) * y + meanOf l * meanOf l := by
    intro y _; ring
  rw [List.map_congr_left hcong, sum_map_quad]
  unfold meanOf
  field_simp
  ring

theorem centered_sum_pos (l : List ℚ) (h : ∃ a ∈ l, ∃ c ∈ l, a ≠ c) :
    0 < (l.map (fun y => (y - meanOf l) * (y - meanOf l))).sum := by
  obtain ⟨a, ha, c, hc, hne⟩ := h
  have key : ∃ y ∈ l, y ≠ meanOf l := by
    by_cases h1 : a = meanOf l
    · exact ⟨c, hc, fun e => hne (h1.trans e.symm)⟩
    · exact ⟨a, ha, h1⟩
  obtain ⟨y, hy, hyne⟩ := key
  have hmem : (y - meanOf l) * (y - meanOf l)
      ∈ l.map (fun z => (z - meanOf l) * (z - meanOf l)) :=
    List.mem_map_of_mem _ hy
  have hpos : 0 < (y - meanOf l) * (y - meanOf l) :=
    mul_self_pos.mpr (sub_ne_zero.mpr hyne)
  refine lt_of_lt_of_le hpos (List.single_le_sum ?_ _ hmem)
  intro x hx
  obtain ⟨z, _, rfl⟩ := List.mem_map.mp hx
  exact mul_self_nonneg _

theorem tiny_pos : (0 : ℚ) < tiny := by norm_num [tiny]

/-! ## OLS on a perfect line -/

theorem syOf_line (pts : List (ℚ × ℚ)) (m b : ℚ)
    (hline : ∀ p ∈ pts, p.2 = m * p.1 + b) :
    syOf pts = m * sxOf pts + pts.length * b := by
  unfold syOf sxOf
  have hcong : ∀ p ∈ pts, p.2 = 0 * (p.1 * p.1) + m * p.1 + b := by
    intro p hp; rw [hline p hp]; ring
  rw [List.map_congr_left hcong, sum_map_quad_fst]
  ring

theorem sxyOf_line (pts : List (ℚ × ℚ)) (m b : ℚ)
    (hline : ∀ p ∈ pts, p.2 = m * p.1 + b) :
    sxyOf pts = m * sx2Of pts + b * sxOf pts := by
  unfold sxyOf sx2Of sxOf
  have hcong : ∀ p ∈ pts, p.1 * p.2 = m * (p.1 * p.1) + b * p.1 + 0 := by
    intro p hp; rw [hline p hp]; ring
  rw [List.map_congr_left hcong, sum_map_quad_fst]
  ring

theorem sy2Of_line (pts : List (ℚ × ℚ)) (m b : ℚ)
    (hline : ∀ p ∈ pts, p.2 = m * p.1 + b) :
    sy2Of pts = m * m * sx2Of pts + 2 * m * b * sxOf pts
      + pts.length * (b * b) := by
  unfold sy2Of sx2Of sxOf
  have hcong : ∀ p ∈ pts, p.2 * p.2
      = (m * m) * (p.1 * p.1) + (2 * m * b) * p.1 + b * b := by
    intro p hp; rw [hline p hp]; ring
  rw [List.map_congr_left hcong, sum_map_quad_fst]

theorem slopeOf_line (pts : List (ℚ × ℚ)) (m b : ℚ)
    (hline : ∀ p ∈ pts, p.2 = m * p.1 + b) (hd : dOf pts ≠ 0) :
    slopeOf pts = m := by
  unfold slopeOf
  rw [syOf_line pts m b hline, sxyOf_line pts m b hline, div_eq_iff hd]
  unfold dOf
  ring

theorem interceptOf_line (pts : List (ℚ × ℚ)) (m b : ℚ)
    (hline : ∀ p ∈ pts, p.2 = m * p.1 + b) (hd : dOf pts ≠ 0)
    (hne : pts ≠ []) :
    interceptOf pts = b := by
  have hn : (pts.length : ℚ) ≠ 0 :=
    Nat.cast_ne_zero.mpr (fun hl => hne (List.length_eq_zero.mp hl))
  unfold interceptOf
  rw [syOf_line pts m b hline, slopeOf_line pts m b hline hd]
  field_simp

theorem sseOf_line (pts : List (ℚ × ℚ)) (m b : ℚ)
    (hline : ∀ p ∈ pts, p.2 = m * p.1 + b) (hd : dOf pts ≠ 0)
    (hne : pts ≠ []) :
    sseOf pts = 0 := by
  unfold sseOf
  apply List.sum_eq_zero
  intro x hx
  obtain ⟨p, hp, rfl⟩ := List.mem_map.mp hx
  rw [slopeOf_line pts m b hline hd, interceptOf_line pts m b hline hd hne,
    hline p hp]
  ring

theorem sstOf_pos (pts : List (ℚ × ℚ))
    (hy : ∃ p ∈ pts, ∃ q ∈ pts, p.2 ≠ q.2) :
    0 < sstOf pts := by
  have hne : pts ≠ [] := by
    obtain ⟨p, hp, -⟩ := hy
    exact List.ne_nil_of_mem hp
  unfold sstOf sy2Of syOf
  have h1 : pts.map (fun p => p.2 * p.2)
      = (pts.map (fun p => p.2)).map (fun y => y * y) := by
    rw [List.map_map]; rfl
  have h2 : (pts.length : ℚ) = ((pts.map (fun p => p.2)).length : ℚ) := by
    simp
  have h3 : pts.map (fun p => p.2) ≠ [] := by simpa using hne
  rw [h1, h2, sst_centered _ h3]
  apply centered_sum_pos
  obtain ⟨p, hp, q, hq, hne2⟩ := hy
  exact ⟨p.2, List.mem_map_of_mem _ hp, q.2, List.mem_map_of_mem _ hq, hne2⟩

theorem dOf_ne_zero (pts : List (ℚ × ℚ)) (hd : ¬ |dOf pts| < tiny) :
    dOf pts ≠ 0 := by
  intro h
  exact hd (by rw [h]; simpa using tiny_pos)

/-- OLS recovers a perfect line exactly (slope, intercept, and, when the `y`
values are not all equal, R² = 1). -/
theorem linearRegression_line (pts : List (ℚ × ℚ)) (m b : ℚ)
    (h3 : 3 ≤ pts.length) (hline : ∀ p ∈ pts, p.2 = m * p.1 + b)
    (hd : ¬ |dOf pts| < tiny) (hy : ∃ p ∈ pts, ∃ q ∈ pts, p.2 ≠ q.2) :
    linearRegression pts = some ⟨m, b, 1, pts.length⟩ := by
  have hd0 := dOf_ne_zero pts hd
  have hne : pts ≠ [] := by
    intro h; rw [h] at h3; simp at h3
  have hn3 : ¬ pts.length < 3 := by omega
  have hsst := sstOf_pos pts hy
  unfold linearRegression
  rw [if_neg hn3, if_neg hd, slopeOf_line pts m b hline hd0,
    interceptOf_line pts m b hline hd0 hne, if_pos hsst,
    sseOf_line pts m b hline hd0 hne]
  norm_num

/-! ## Zero-residual facts and the trimming/Huber break paths -/

theorem residualsOf_line (pts : List (ℚ × ℚ)) (m b : ℚ)
    (hline : ∀ p ∈ pts, p.2 = m * p.1 + b) :
    ∀ r ∈ residualsOf pts m b, r = 0 := by
  intro r hr
  obtain ⟨p, hp, rfl⟩ := List.mem_map.mp hr
  rw [hline p hp]
  ring

theorem meanOf_zero (l : List ℚ) (h : ∀ r ∈ l, r = 0) : meanOf l = 0 := by
  unfold meanOf
  rw [List.sum_eq_zero h]
  simp

theorem varianceOf_zero (l : List ℚ) (h : ∀ r ∈ l, r = 0) :
    varianceOf l = 0 := by
  unfold varianceOf
  rw [List.sum_eq_zero]
  · simp
  · intro x hx
    obtain ⟨r, hr, rfl⟩ := List.mem_map.mp hx
    rw [h r hr, meanOf_zero l h]
    ring

theorem scaleOf_zero (l : List ℚ) (h : ∀ r ∈ l, r = 0) : scaleOf l = 0 := by
  have habs : ∀ x ∈ (l.map (fun r => |r|)).mergeSort (fun a b => a ≤ b),
      x = 0 := by
    intro x hx
    have hx' := (List.mergeSort_perm (l.map (fun r => |r|))
      (fun a b => a ≤ b)).mem_iff.mp hx
    obtain ⟨r, hr, rfl⟩ := List.mem_map.mp hx'
    rw [h r hr]
    simp
  unfold scaleOf medianOfSorted
  split
  · rw [getD_zero_of_all_zero _ habs, getD_zero_of_all_zero _ habs]
    norm_num
  · rw [getD_zero_of_all_zero _ habs]
    norm_num

theorem mseOf_line (pts : List (ℚ × ℚ)) (m b : ℚ)
    (hline : ∀ p ∈ pts, p.2 = m * p.1 + b) : mseOf pts m b = 0 := by
  unfold mseOf
  rw [List.sum_eq_zero]
  · simp
  · intro x hx
    obtain ⟨r, hr, rfl⟩ := List.mem_map.mp hx
    rw [residualsOf_line pts m b hline r hr]
    ring

/-- On a perfect line the trimming loop stops in its first iteration (the
residual variance vanishes), so trimmed OLS returns the plain OLS fit with
nothing removed — for every threshold and iteration budget. -/
theorem linearRegressionTrimmed_line (pts : List (ℚ × ℚ)) (m b : ℚ)
    (threshold : ℚ) (maxIter : ℕ) (h3 : 3 ≤ pts.length)
    (hline : ∀ p ∈ pts, p.2 = m * p.1 + b) (hd : ¬ |dOf pts| < tiny)
    (hy : ∃ p ∈ pts, ∃ q ∈ pts, p.2 ≠ q.2) :
    linearRegressionTrimmed threshold maxIter pts
      = some ⟨m, b, 1, pts.length, pts.length⟩ := by
  have hols := linearRegression_line pts m b h3 hline hd hy
  have hvar : varianceOf (residualsOf pts m b) = 0 :=
    varianceOf_zero _ (residualsOf_line pts m b hline)
  have hloop : ∀ fuel, trimmedLoop threshold fuel pts = some pts := by
    intro fuel
    cases fuel with
    | zero => rfl
    | succ f =>
      have ht2 : (0 : ℚ) < tiny ^ 2 := pow_pos tiny_pos 2
      simp [trimmedLoop, hols, hvar, ht2]
  unfold linearRegressionTrimmed
  rw [if_neg (by omega), hloop maxIter]
  simp [hols]

/-- Whenever the current OLS fit has near-zero MSE or a near-zero leverage
denominator, the Cook's-distance loop `break`s and the estimator returns the
plain OLS fit on the full input with an empty removal list (it does *not*
fail). -/
theorem linearRegressionCooks_break (pts : List (ℚ × ℚ))
    (r : RegressionResult) (thresholdMultiplier : ℚ) (maxIter : ℕ)
    (h3 : 3 ≤ pts.length) (hr : linearRegression pts = some r)
    (hsmall : mseOf pts r.slope r.intercept < tiny ∨ ssxOf pts < tiny) :
    linearRegressionCooks thresholdMultiplier maxIter pts
      = some ⟨r.slope, r.intercept, r.r2, r.n, pts.length, []⟩ := by
  have hloop : ∀ fuel idx,
      cooksLoop thresholdMultiplier fuel pts idx = some (pts, idx) := by
    intro fuel idx
    cases fuel with
    | zero => rfl
    | succ f =>
      by_cases hmse : mseOf pts r.slope r.intercept < tiny
      · simp [cooksLoop, hr, hmse]
      · have hssx := hsmall.resolve_left hmse
        simp [cooksLoop, hr, hmse, hssx]
  have hempty : (List.range pts.length).filter
      (fun i => ¬ i ∈ List.range pts.length) = [] := by
    simp
  unfold linearRegressionCooks
  rw [if_neg (by omega), hloop maxIter (List.range pts.length)]
  simp [hr, hempty]

/-- On a perfect line the first Cook's fit has zero MSE, so the estimator
returns the OLS fit with nothing removed. -/
theorem linearRegressionCooks_line (pts : List (ℚ × ℚ)) (m b : ℚ)
    (thresholdMultiplier : ℚ) (maxIter : ℕ) (h3 : 3 ≤ pts.length)
    (hline : ∀ p ∈ pts, p.2 = m * p.1 + b) (hd : ¬ |dOf pts| < tiny)
    (hy : ∃ p ∈ pts, ∃ q ∈ pts, p.2 ≠ q.2) :
    linearRegressionCooks thresholdMultiplier maxIter pts
      = some ⟨m, b, 1, pts.length, pts.length, []⟩ := by
  have hols := linearRegression_line pts m b h3 hline hd hy
  exact linearRegressionCooks_break pts ⟨m, b, 1, pts.length⟩
    thresholdMultiplier maxIter h3 hols
    (Or.inl (by rw [mseOf_line pts m b hline]; exact tiny_pos))

/-- On a perfect line the Huber iteration stops immediately (zero MAD scale)
at the OLS coefficients, and the unweighted R² is 1. -/
theorem linearRegressionRobust_line (pts : List (ℚ × ℚ)) (m b : ℚ)
    (k : ℚ) (maxIter : ℕ) (tol : ℚ) (h3 : 3 ≤ pts.length)
    (hline : ∀ p ∈ pts, p.2 = m * p.1 + b) (hd : ¬ |dOf pts| < tiny)
    (hy : ∃ p ∈ pts, ∃ q ∈ pts, p.2 ≠ q.2) :
    linearRegressionRobust k maxIter tol pts = some ⟨m, b, 1, pts.length⟩ := by
  have hols := linearRegression_line pts m b h3 hline hd hy
  have hscale : scaleOf (residualsOf pts m b) = 0 :=
    scaleOf_zero _ (residualsOf_line pts m b hline)
  have hloop : ∀ fuel, huberLoop k tol pts fuel m b = some (m, b) := by
    intro fuel
    cases fuel with
    | zero => rfl
    | succ f =>
      simp [huberLoop, hscale, tiny_pos]
  have hsse : (pts.map (fun p => (p.2 - (m * p.1 + b)) *
      (p.2 - (m * p.1 + b)))).sum = 0 := by
    apply List.sum_eq_zero
    intro x hx
    obtain ⟨p, hp, rfl⟩ := List.mem_map.mp hx
    rw [hline p hp]
    ring
  have hsst : 0 < (pts.map (fun p =>
      (p.2 - (pts.map (fun q => q.2)).sum / (pts.length : ℚ)) *
      (p.2 - (pts.map (fun q => q.2)).sum / (pts.length : ℚ)))).sum := by
    have hmap : pts.map (fun p =>
        (p.2 - (pts.map (fun q => q.2)).sum / (pts.length : ℚ)) *
        (p.2 - (pts.map (fun q => q.2)).sum / (pts.length : ℚ)))
        = (pts.map (fun p => p.2)).map (fun y =>
            (y - meanOf (pts.map (fun p => p.2))) *
            (y - meanOf (pts.map (fun p => p.2)))) := by
      rw [List.map_map]
      apply List.map_congr_left
      intro p _
      simp [meanOf]
    rw [hmap]
    apply centered_sum_pos
    obtain ⟨p, hp, q, hq, hne⟩ := hy
    exact ⟨p.2, List.mem_map_of_mem _ hp, q.2, List.mem_map_of_mem _ hq, hne⟩
  unfold linearRegressionRobust
  rw [if_neg (by omega)]
  simp only [hols, hloop maxIter]
  rw [if_pos hsst, hsse]
  norm_num

/-! ## Claim C5 -/

/-- Claim C5, counterexample.  The constant line `y = 0·x + 1` (slope 0,
intercept 1) has three points, yet `logLinearRegression` returns log-space
intercept `0 ≠ 1` and `R² = 0 ≠ 1`: the log-linear estimator does not recover
a perfect line's coefficients, contrary to the claim's "each of the five
estimators". -/
theorem logLinear_misses_line_counterexample :
    (∀ p ∈ [((0 : ℝ), (1 : ℝ)), (1, 1), (2, 1)], p.2 = 0 * p.1 + 1) ∧
    logLinearRegression [((0 : ℝ), (1 : ℝ)), (1, 1), (2, 1)]
      = some ⟨0, 0, 0, 0, 0, 3⟩ ∧ (0 : ℝ) ≠ 1 := by
  refine ⟨by intro p hp; fin_cases hp <;> norm_num, ?_, by norm_num⟩
  norm_num [logLinearRegression, linearRegressionR, List.filter, tiny,
    Real.log_one]

/-- Claim C5 (amended): on every point set of size ≥ 3 lying exactly on
`y = m·x + b`, with the design-matrix guard passing and the `y` values not
all equal, the four *linear* estimators (OLS, residual trimming,
Cook's-distance trimming, Huber robust — at the source's default parameters)
return exactly `slope = m`, `intercept = b`, `R² = 1`, using all points.
The log-linear estimator is excluded (see the counterexample); when all `y`
are equal the source defines R² as 0, not 1. -/
theorem linear_estimators_recover_line (pts : List (ℚ × ℚ)) (m b : ℚ)
    (h3 : 3 ≤ pts.length) (hline : ∀ p ∈ pts, p.2 = m * p.1 + b)
    (hd : tiny ≤ |dOf pts|) (hy : ∃ p ∈ pts, ∃ q ∈ pts, p.2 ≠ q.2) :
    linearRegression pts = some ⟨m, b, 1, pts.length⟩ ∧
    linearRegressionTrimmed 2 2 pts
      = some ⟨m, b, 1, pts.length, pts.length⟩ ∧
    linearRegressionCooks 1 2 pts
      = some ⟨m, b, 1, pts.length, pts.length, []⟩ ∧
    linearRegressionRobust (1345 / 1000) 50 (1 / 10 ^ 6) pts
      = some ⟨m, b, 1, pts.length⟩ := by
  have hd' : ¬ |dOf pts| < tiny := not_lt.mpr hd
  exact ⟨linearRegression_line pts m b h3 hline hd' hy,
    linearRegressionTrimmed_line pts m b 2 2 h3 hline hd' hy,
    linearRegressionCooks_line pts m b 1 2 h3 hline hd' hy,
    linearRegressionRobust_line pts m b (1345 / 1000) 50 (1 / 10 ^ 6) h3
      hline hd' hy⟩

/-- Claim C5, witness: the amended theorem applied to the concrete line
`y = 2x + 1` on `x ∈ {0, 1, 2}`. -/
theorem linear_estimators_recover_line_witness :
    linearRegression [((0 : ℚ), 1), (1, 3), (2, 5)] = some ⟨2, 1, 1, 3⟩ ∧
    linearRegressionTrimmed 2 2 [((0 : ℚ), 1), (1, 3), (2, 5)]
      = some ⟨2, 1, 1, 3, 3⟩ ∧
    linearRegressionCooks 1 2 [((0 : ℚ), 1), (1, 3), (2, 5)]
      = some ⟨2, 1, 1, 3, 3, []⟩ ∧
    linearRegressionRobust (1345 / 1000) 50 (1 / 10 ^ 6)
      [((0 : ℚ), 1), (1, 3), (2, 5)] = some ⟨2, 1, 1, 3⟩ := by
  have h := linear_estimators_recover_line [((0 : ℚ), 1), (1, 3), (2, 5)] 2 1
    (by norm_num) (by intro p hp; fin_cases hp <;> norm_num)
    (by norm_num [dOf, sx2Of, sxOf, tiny])
    ⟨(0, 1), by norm_num, (1, 3), by norm_num, by norm_num⟩
  simpa using h

/-! ## Claim C2 -/

/-- Claim C2, counterexample.  On the perfect line `[(0,0),(1,1),(2,2)]` the
OLS fit has MSE `0 < 1e-12`, yet `linearRegressionCooks` returns a result
(the OLS fit, nothing removed) — not "no result" as the claim's edge-case
list asserts for a near-zero MSE. -/
theorem cooks_mse_break_counterexample :
    mseOf [((0 : ℚ), 0), (1, 1), (2, 2)] 1 0 < tiny ∧
    linearRegression [((0 : ℚ), 0), (1, 1), (2, 2)] = some ⟨1, 0, 1, 3⟩ ∧
    linearRegressionCooks 1 2 [((0 : ℚ), 0), (1, 1), (2, 2)]
      = some ⟨1, 0, 1, 3, 3, []⟩ := by
  refine ⟨by norm_num [mseOf, residualsOf, tiny], ?_, ?_⟩
  · norm_num [linearRegression, dOf, sxOf, syOf, sxyOf, sx2Of, sy2Of, tiny,
      slopeOf, interceptOf, sstOf, sseOf]
  · norm_num [linearRegressionCooks, cooksLoop, linearRegression, dOf, sxOf,
      syOf, sxyOf, sx2Of, sy2Of, tiny, slopeOf, interceptOf, sstOf, sseOf,
      mseOf, residualsOf]

/-- Claim C2 (amended): every estimator returns no result on fewer than
3 points, and log-linear returns no result when fewer than 3 points have
positive `y`; but a near-zero MSE or leverage denominator (`< 1e-12`) does
*not* make Cook's-distance trimming return "no result" — it stops trimming
and returns the plain OLS fit on the current subset with an empty removal
list. -/
theorem estimator_edge_cases (pts : List (ℚ × ℚ)) (ptsR : List (ℝ × ℝ))
    (threshold : ℚ) (maxIter : ℕ) (k tol thresholdMultiplier : ℚ)
    (r : RegressionResult) :
    (pts.length < 3 →
      linearRegression pts = none ∧
      linearRegressionTrimmed threshold maxIter pts = none ∧
      linearRegressionCooks thresholdMultiplier maxIter pts = none ∧
      linearRegressionRobust k maxIter tol pts = none) ∧
    (ptsR.length < 3 → logLinearRegression ptsR = none) ∧
    ((ptsR.filter (fun p => 0 < p.2)).length < 3 →
      logLinearRegression ptsR = none) ∧
    (3 ≤ pts.length → linearRegression pts = some r →
      mseOf pts r.slope r.intercept < tiny ∨ ssxOf pts < tiny →
      linearRegressionCooks thresholdMultiplier maxIter pts
        = some ⟨r.slope, r.intercept, r.r2, r.n, pts.length, []⟩) := by
  refine ⟨?_, ?_, ?_, ?_⟩
  · intro h
    exact ⟨by simp [linearRegression, h],
      by simp [linearRegressionTrimmed, h],
      by simp [linearRegressionCooks, h],
      by simp [linearRegressionRobust, h]⟩
  · intro h
    have hf : (ptsR.filter (fun p => 0 < p.2)).length < 3 :=
      lt_of_le_of_lt (List.length_filter_le _ _) h
    simp [logLinearRegression, hf]
  · intro hf
    simp [logLinearRegression, hf]
  · intro h3 hr hsmall
    exact linearRegressionCooks_break pts r thresholdMultiplier maxIter h3 hr
      hsmall

/-- Claim C2, witness: the amended theorem applied to a 2-point list, a
3-point nonpositive-`y` list, and the perfect line `[(0,0),(1,1),(2,2)]`
whose first fit has zero MSE. -/
theorem estimator_edge_cases_witness :
    linearRegression [((0 : ℚ), 0), (1, 1)] = none ∧
    logLinearRegression [((0 : ℝ), -1), (1, -1), (2, -1)] = none ∧
    linearRegressionCooks 1 2 [((0 : ℚ), 0), (1, 1), (2, 2)]
      = some ⟨1, 0, 1, 3, 3, []⟩ := by
  have h := estimator_edge_cases [((0 : ℚ), 0), (1, 1)]
    [((0 : ℝ), -1), (1, -1), (2, -1)] 2 2 (1345 / 1000) (1 / 10 ^ 6) 1
    ⟨1, 0, 1, 3⟩
  have h2 := estimator_edge_cases [((0 : ℚ), 0), (1, 1), (2, 2)]
    [((0 : ℝ), -1), (1, -1), (2, -1)] 2 2 (1345 / 1000) (1 / 10 ^ 6) 1
    ⟨1, 0, 1, 3⟩
  refine ⟨(h.1 (by norm_num)).1, h.2.2.1 ?_, ?_⟩
  · norm_num [List.filter]
  · have hc := h2.2.2.2 (by norm_num)
      (by norm_num [linearRegression, dOf, sxOf, syOf, sxyOf, sx2Of, sy2Of,
        tiny, slopeOf, interceptOf, sstOf, sseOf])
      (Or.inl (by norm_num [mseOf, residualsOf, tiny]))
    simpa using hc

/-! ## Claim C4 -/

/-- Claim C4: `computeDcf` returns no result exactly when `forwardEps ≤ 0`,
`currentPe ≤ 0`, or `discountRate ≤ terminalGrowth`; on every other input it
returns a result.  The embedding is a total function, so no input throws. -/
theorem computeDcf_validation (inputs : DcfInputs) :
    (computeDcf inputs = none ↔
      inputs.forwardEps ≤ 0 ∨ inputs.currentPe ≤ 0 ∨
        inputs.discountRate ≤ inputs.terminalGrowth) ∧
    ((computeDcf inputs).isSome ↔
      0 < inputs.forwardEps ∧ 0 < inputs.currentPe ∧
        inputs.terminalGrowth < inputs.discountRate) := by
  unfold computeDcf
  split_ifs with h1 h2 h3 <;> simp_all [not_le]

/-! ## Claim C1 -/

/-- Claim C1, counterexample.  With one index of R² = ½ and implied multiple
10 and another of R² = −½ and implied multiple 20, the source includes the
negative R² in both sums (total weight 0) and returns no composite, whereas
the claim's rule (exclude non-positive R²) yields 10: non-positive R² is
*not* excluded — a negative R² is negated into the average, and a sign-
cancelled total weight turns into "no composite". -/
theorem composite_negative_r2_counterexample :
    computeCompositeValuation
      [⟨"a", 10, some ⟨1, 0, 1 / 2, 3, 3⟩, some 10⟩,
       ⟨"b", 10, some ⟨1, 0, -(1 / 2), 3, 3⟩, some 20⟩] = none ∧
    compositeValuationClaim
      [⟨"a", 10, some ⟨1, 0, 1 / 2, 3, 3⟩, some 10⟩,
       ⟨"b", 10, some ⟨1, 0, -(1 / 2), 3, 3⟩, some 20⟩] = some 10 := by
  constructor <;>
    norm_num [computeCompositeValuation, compositeValuationClaim, List.filter]

theorem composite_sums_drop_zero_weights
    (regressions : List IndexRegressionPrediction)
    (hnn : ∀ p ∈ regressions, ∀ g ∈ p.regression,
      (∃ im ∈ p.impliedMultiple, 0 < im) → 0 ≤ g.r2) :
    ((regressions.filter (fun r =>
        r.regression.isSome && decide (∃ im ∈ r.impliedMultiple, im > 0))).map
          (fun r => (r.regression.map (fun g => g.r2)).getD 0)).sum
      = ((regressions.filter (fun r =>
        decide (∃ g ∈ r.regression, g.r2 > 0) &&
          decide (∃ im ∈ r.impliedMultiple, im > 0))).map
          (fun r => (r.regression.map (fun g => g.r2)).getD 0)).sum ∧
    ((regressions.filter (fun r =>
        r.regression.isSome && decide (∃ im ∈ r.impliedMultiple, im > 0))).map
          (fun r => (r.impliedMultiple.getD 0) *
            (r.regression.map (fun g => g.r2)).getD 0)).sum
      = ((regressions.filter (fun r =>
        decide (∃ g ∈ r.regression, g.r2 > 0) &&
          decide (∃ im ∈ r.impliedMultiple, im > 0))).map
          (fun r => (r.impliedMultiple.getD 0) *
            (r.regression.map (fun g => g.r2)).getD 0)).sum := by
  induction regressions with
  | nil => simp
  | cons a t ih =>
    have hnn' : ∀ p ∈ t, ∀ g ∈ p.regression,
        (∃ im ∈ p.impliedMultiple, 0 < im) → 0 ≤ g.r2 := by
      intro p hp
      exact hnn p (List.mem_cons_of_mem a hp)
    obtain ⟨ih1, ih2⟩ := ih hnn'
    by_cases hP : (a.regression.isSome
        && decide (∃ im ∈ a.impliedMultiple, im > 0)) = true
    · by_cases hQ : (decide (∃ g ∈ a.regression, g.r2 > 0) &&
          decide (∃ im ∈ a.impliedMultiple, im > 0)) = true
      · simp only [List.filter_cons, hP, hQ, if_pos, List.map_cons,
          List.sum_cons, ih1, ih2, and_self]
      · -- kept by the source but not by the claim: its weight must be 0
        have him : ∃ im ∈ a.impliedMultiple, 0 < im := by
          simp only [Bool.and_eq_true, decide_eq_true_eq] at hP
          exact hP.2
        obtain ⟨g, hg⟩ := Option.isSome_iff_exists.mp
          (by simp only [Bool.and_eq_true] at hP; exact hP.1)
        have hle : g.r2 ≤ 0 := by
          simp only [Bool.and_eq_true, decide_eq_true_eq, not_and] at hQ
          by_contra hlt
          push_neg at hlt
          exact absurd (⟨g, hg, hlt⟩ : ∃ g' ∈ a.regression, g'.r2 > 0)
            (by simpa using fun hx => hQ hx (by simpa using him))
        have hge : 0 ≤ g.r2 := hnn a (List.mem_cons_self a t) g hg him
        have hzero : (a.regression.map (fun g => g.r2)).getD 0 = 0 := by
          rw [hg]
          simp [le_antisymm hle hge]
        simp only [List.filter_cons, hP, hQ, if_pos, List.map_cons,
          List.sum_cons, hzero, mul_zero, zero_add, Bool.false_eq_true,
          if_false, ih1, ih2, and_self]
    · have hQ : (decide (∃ g ∈ a.regression, g.r2 > 0) &&
          decide (∃ im ∈ a.impliedMultiple, im > 0)) ≠ true := by
        intro hq
        apply hP
        simp only [Bool.and_eq_true, decide_eq_true_eq] at hq ⊢
        obtain ⟨⟨g, hg, -⟩, him⟩ := hq
        exact ⟨Option.isSome_iff_exists.mpr ⟨g, hg⟩, by simpa using him⟩
      simp only [List.filter_cons, hP, hQ, Bool.false_eq_true, if_false,
        ih1, ih2, and_self]

/-- Claim C1 (amended): `computeCompositeValuation` qualifies an index only by
`impliedMultiple > 0` (with a successful regression) and weights by the *raw*
R² — a negative R² subtracts from both sums, and a non-positive total weight
also yields "no composite".  Provided every index with a positive implied
multiple has nonnegative R², this coincides with the claim's rule (indices
with `R² ≤ 0` excluded from numerator and denominator, none when no index
qualifies). -/
theorem composite_matches_claim_when_r2_nonneg
    (regressions : List IndexRegressionPrediction)
    (hnn : ∀ p ∈ regressions, ∀ g ∈ p.regression,
      (∃ im ∈ p.impliedMultiple, 0 < im) → 0 ≤ g.r2) :
    computeCompositeValuation regressions
      = compositeValuationClaim regressions := by
  obtain ⟨hw, ht⟩ := composite_sums_drop_zero_weights regressions hnn
  unfold computeCompositeValuation compositeValuationClaim
  simp only
  by_cases hv : (regressions.filter (fun r =>
      r.regression.isSome && decide (∃ im ∈ r.impliedMultiple, im > 0))) = []
  · have hq : (regressions.filter (fun r =>
        decide (∃ g ∈ r.regression, g.r2 > 0) &&
          decide (∃ im ∈ r.impliedMultiple, im > 0))) = [] := by
      rw [List.filter_eq_nil_iff] at hv ⊢
      intro p hp hq
      apply hv p hp
      simp only [Bool.and_eq_true, decide_eq_true_eq] at hq ⊢
      obtain ⟨⟨g, hg, -⟩, him⟩ := hq
      exact ⟨Option.isSome_iff_exists.mpr ⟨g, hg⟩, him⟩
    rw [hv, hq]
    simp
  · rw [if_neg (by simpa [List.length_eq_zero] using hv)]
    by_cases hq : (regressions.filter (fun r =>
        decide (∃ g ∈ r.regression, g.r2 > 0) &&
          decide (∃ im ∈ r.impliedMultiple, im > 0))) = []
    · -- no index qualifies under the claim's rule: the total weight is 0
      have hzero : ((regressions.filter (fun r =>
          r.regression.isSome && decide (∃ im ∈ r.impliedMultiple, im > 0))).map
            (fun r => (r.regression.map (fun g => g.r2)).getD 0)).sum = 0 := by
        rw [hw, hq]
        simp
      rw [if_neg (by rw [hzero]; simp), hq]
      simp
    · have hpos : 0 < ((regressions.filter (fun r =>
          decide (∃ g ∈ r.regression, g.r2 > 0) &&
            decide (∃ im ∈ r.impliedMultiple, im > 0))).map
            (fun r => (r.regression.map (fun g => g.r2)).getD 0)).sum := by
        apply List.sum_pos
        · intro w hwmem
          obtain ⟨p, hp, rfl⟩ := List.mem_map.mp hwmem
          have hp' := List.of_mem_filter hp
          simp only [Bool.and_eq_true, decide_eq_true_eq] at hp'
          obtain ⟨⟨g, hg, hgpos⟩, -⟩ := hp'
          rw [hg]
          simpa using hgpos
        · simpa using hq
      rw [hw, ht, if_pos hpos, if_neg (by simpa [List.length_eq_zero] using hq)]

/-- Claim C1, witness: the amended theorem applied to a single index with
R² = ½ and implied multiple 10 (both rules give composite 10). -/
theorem composite_matches_claim_witness :
    computeCompositeValuation [⟨"a", 12, some ⟨1, 0, 1 / 2, 3, 3⟩, some 10⟩]
      = compositeValuationClaim [⟨"a", 12, some ⟨1, 0, 1 / 2, 3, 3⟩, some 10⟩] := by
  apply composite_matches_claim_when_r2_nonneg
  intro p hp g hg him
  fin_cases hp
  simp at hg
  rw [← hg]
  norm_num

/-! ## Claim C3 -/

/-- For the Price/EPS metric the two filters agree exactly (`okEps` already
demands a present EPS-growth value, so the missing-growth divergence cannot
arise, and there is no `multiple ≥ 0` guard). -/
theorem valueFor_pEPS_eq (data : DashboardData) (di : ℕ)
    (b1 b2 b3 b4 : Option ℚ) (t : String) :
    valueFor data .pEPS di b1 b2 b3 b4 t
      = (pointFor data .pEPS di b1 b2 b3 b4 t).map (fun p => p.y) := by
  unfold valueFor pointFor
  cases hfm : data.fm t with
  | none => rfl
  | some d =>
    simp only [multipleSeries, growthSeries]
    rcases hm : getv d.pe di with _ | m
    · rfl
    · rcases hg : getv d.xg di with _ | g
      · have hok : okEps data t di = false := by
          unfold okEps
          simp only [hfm]
          rw [hg]
          cases getv d.fe di <;> rfl
        simp [hok]
      · by_cases hok : okEps data t di
        · by_cases h200 : m > 200
          · simp [hok, h200]
          · by_cases hb : (rgBoundOk d di b1 b2 && xgBoundOk d di b3 b4) = true
            · simp [hok, h200, hb]
            · simp [hok, h200, hb]
        · simp [hok]

theorem valueFor_ev_eq (data : DashboardData) (type : MetricType) (di : ℕ)
    (b1 b2 b3 b4 : Option ℚ) (t : String)
    (hty : type = .evRev ∨ type = .evGP)
    (hgrow : ∀ d, data.fm t = some d → (getv d.rg di).isSome) :
    valueFor data type di b1 b2 b3 b4 t
      = ((pointFor data type di b1 b2 b3 b4 t).filter
          (fun p => 0 ≤ p.y)).map (fun p => p.y) := by
  unfold valueFor pointFor
  cases hfm : data.fm t with
  | none => rfl
  | some d =>
    obtain ⟨g, hg⟩ := Option.isSome_iff_exists.mp (hgrow d hfm)
    rcases hty with rfl | rfl <;>
      simp only [multipleSeries, growthSeries, hg]
    · rcases hm : getv d.er di with _ | m
      · rfl
      · by_cases h80 : m > 80
        · simp [h80]
        · by_cases hneg : m < 0 <;>
            by_cases hb : (rgBoundOk d di b1 b2 && xgBoundOk d di b3 b4) = true
          · simp [h80, hneg, hb, Option.filter, not_le.mpr hneg]
          · simp [h80, hneg, hb]
          · simp [h80, hneg, hb, Option.filter, not_lt.mp hneg]
          · simp [h80, hneg, hb]
    · rcases hm : getv d.eg di with _ | m
      · rfl
      · by_cases h120 : m > 120
        · simp [h120]
        · by_cases hneg : m < 0 <;>
            by_cases hb : (rgBoundOk d di b1 b2 && xgBoundOk d di b3 b4) = true
          · simp [h120, hneg, hb, Option.filter, not_le.mpr hneg]
          · simp [h120, hneg, hb]
          · simp [h120, hneg, hb, Option.filter, not_lt.mp hneg]
          · simp [h120, hneg, hb]


/-- Claim C3, counterexample.  A ticker whose EV/Revenue multiple is present
(5) but whose revenue-growth value is missing is dropped by `filterPoints`
yet kept by `filterMultiples`: the multiples filter does not apply the
"missing growth value → drop" rule, so the two rule sets are not identical
even up to the `multiple ≥ 0` guard (5 ≥ 0 passes it). -/
theorem filterMultiples_missing_growth_counterexample :
    filterPoints dataNoGrowth .evRev 0 ["A"] none none none none = [] ∧
    filterMultiples dataNoGrowth .evRev 0 ["A"] none none none none = [5] := by
  constructor
  · norm_num [filterPoints, filterMultiples, pointFor, valueFor, dataNoGrowth,
      evRevRow, getv, multipleSeries, growthSeries, rgBoundOk, xgBoundOk,
      List.filterMap]
  · norm_num [filterPoints, filterMultiples, pointFor, valueFor, dataNoGrowth,
      evRevRow, getv, multipleSeries, growthSeries, rgBoundOk, xgBoundOk,
      List.filterMap]
    rw [if_neg (by rintro ⟨h, -⟩; exact absurd h (by simp))]

/-- Claim C3 (amended): `filterMultiples` applies the same rules as
`filterPoints` *except* that it never requires the metric's growth value to
be present, plus the additional `multiple ≥ 0` guard for the EV-based
metrics.  Concretely: for Price/EPS the outputs coincide exactly (the
`okEps` gate already demands EPS growth), and for the EV metrics they
coincide — multiples filtered to `≥ 0` — whenever every listed ticker's
revenue-growth value is present. -/
theorem filterMultiples_rules (data : DashboardData) (di : ℕ)
    (tickers : List String) (b1 b2 b3 b4 : Option ℚ) :
    (filterMultiples data .pEPS di tickers b1 b2 b3 b4
      = (filterPoints data .pEPS di tickers b1 b2 b3 b4).map (fun p => p.y)) ∧
    (∀ type, (type = .evRev ∨ type = .evGP) →
      (∀ t ∈ tickers, ∀ d, data.fm t = some d → (getv d.rg di).isSome) →
      filterMultiples data type di tickers b1 b2 b3 b4
        = ((filterPoints data type di tickers b1 b2 b3 b4).filter
            (fun p => 0 ≤ p.y)).map (fun p => p.y)) := by
  constructor
  · unfold filterMultiples filterPoints
    rw [List.map_filterMap]
    exact List.filterMap_congr (fun t _ => valueFor_pEPS_eq data di b1 b2 b3 b4 t)
  · intro type hty hgrow
    unfold filterMultiples filterPoints
    rw [List.filter_filterMap, List.map_filterMap]
    exact List.filterMap_congr (fun t ht =>
      valueFor_ev_eq data type di b1 b2 b3 b4 t hty (hgrow t ht))

/-- Claim C3, witness: the amended theorem's EV part applied to the concrete
flat dataset (revenue growth present for all three tickers). -/
theorem filterMultiples_rules_witness :
    filterMultiples dataFlat .evRev 0 ["A", "B", "C"] none none none none
      = ((filterPoints dataFlat .evRev 0 ["A", "B", "C"] none none none
          none).filter (fun p => 0 ≤ p.y)).map (fun p => p.y) := by
  refine (filterMultiples_rules dataFlat 0 ["A", "B", "C"]
    none none none none).2 .evRev (Or.inl rfl) ?_
  intro t ht d hd
  fin_cases ht <;> simp_all [dataFlat, evRevRow, getv] <;> subst hd <;> simp

/-! ## Claim C9 -/

/-- Claim C9, counterexample.  In the series `[5, 5, 7]` the reference date 0
holds the minimum 5, but the minimum is tied: the rank counts *both* 5's as
`≤ 5`, giving percentile `2·100/3 = 200/3`, not `100/n = 100/3`. -/
theorem percentile_tied_min_counterexample :
    computePercentileRank [⟨"d0", some 5⟩, ⟨"d1", some 5⟩, ⟨"d2", some 7⟩] 0
      = some ⟨5, 200 / 3, 5, 5, 33 / 5, 3⟩ ∧
    (∀ w ∈ ([⟨"d0", some 5⟩, ⟨"d1", some 5⟩, ⟨"d2", some 7⟩] :
      List DeviationPoint).filterMap (fun p => p.pctDiff), (5 : ℚ) ≤ w) ∧
    (200 : ℚ) / 3 ≠ 100 / 3 := by
  refine ⟨?_, ?_, by norm_num⟩
  · have hc1 : (⌈(1 : ℚ) / 5⌉ : ℤ) = 1 := by
      rw [Int.ceil_eq_iff]
      norm_num
    have hc9 : (⌈(9 : ℚ) / 5⌉ : ℤ) = 2 := by
      rw [Int.ceil_eq_iff]
      norm_num
    have ht2 : Int.toNat 2 = 2 := rfl
    norm_num [computePercentileRank, percentile, List.mergeSort,
      List.filterMap, List.filter, getv, hc1, hc9, ht2]
  · intro w hw
    simp [List.filterMap] at hw
    rcases hw with rfl | rfl | rfl <;> norm_num

/-- Claim C9 (amended): with at least 3 non-null deviations, the percentile
rank at a reference date holding the maximum is 100; at a reference date
holding the minimum it is `100·k/n` with `k` the number of values tied at
the minimum — equal to the claim's `100/n` exactly when the minimum is
attained once. -/
theorem percentile_rank_extremes :
    (∀ (series : List DeviationPoint) (i : ℕ) (pt : DeviationPoint) (v : ℚ),
      series.get? i = some pt → pt.pctDiff = some v →
      3 ≤ (series.filterMap (fun p => p.pctDiff)).length →
      (∀ w ∈ series.filterMap (fun p => p.pctDiff), w ≤ v) →
      ∃ res, computePercentileRank series i = some res ∧
        res.percentile = 100) ∧
    (∀ (series : List DeviationPoint) (i : ℕ) (pt : DeviationPoint) (v : ℚ),
      series.get? i = some pt → pt.pctDiff = some v →
      3 ≤ (series.filterMap (fun p => p.pctDiff)).length →
      (∀ w ∈ series.filterMap (fun p => p.pctDiff), v ≤ w) →
      (series.filterMap (fun p => p.pctDiff)).count v = 1 →
      ∃ res, computePercentileRank series i = some res ∧
        res.percentile
          = 100 / (series.filterMap (fun p => p.pctDiff)).length) := by
  have hpr : ∀ (series : List DeviationPoint) (i : ℕ) (pt : DeviationPoint)
      (v : ℚ), series.get? i = some pt → pt.pctDiff = some v →
      3 ≤ (series.filterMap (fun p => p.pctDiff)).length →
      computePercentileRank series i = some
        ⟨v, ((((series.filterMap (fun p => p.pctDiff)).mergeSort
            (fun a b => a ≤ b)).filter (fun w => w ≤ v)).length : ℚ) /
          (((series.filterMap (fun p => p.pctDiff)).mergeSort
            (fun a b => a ≤ b)).length : ℚ) * 100,
          percentile ((series.filterMap (fun p => p.pctDiff)).mergeSort
            (fun a b => a ≤ b)) (1 / 2),
          percentile ((series.filterMap (fun p => p.pctDiff)).mergeSort
            (fun a b => a ≤ b)) (1 / 10),
          percentile ((series.filterMap (fun p => p.pctDiff)).mergeSort
            (fun a b => a ≤ b)) (9 / 10),
          ((series.filterMap (fun p => p.pctDiff)).mergeSort
            (fun a b => a ≤ b)).length⟩ := by
    intro series i pt v hget hv h3
    have hlen : ¬ (series.filterMap (fun p => p.pctDiff)).length < 3 := by
      omega
    simp only [computePercentileRank, hget, hv, hlen, if_false]
  constructor
  · intro series i pt v hget hv h3 hmax
    have hperm := List.mergeSort_perm (series.filterMap (fun p => p.pctDiff))
      (fun a b => a ≤ b)
    have hall : ∀ w ∈ (series.filterMap (fun p => p.pctDiff)).mergeSort
        (fun a b => a ≤ b), decide (w ≤ v) = true := by
      intro w hw
      exact decide_eq_true (hmax w (hperm.mem_iff.mp hw))
    have hfull : (((series.filterMap (fun p => p.pctDiff)).mergeSort
        (fun a b => a ≤ b)).filter (fun w => w ≤ v))
        = (series.filterMap (fun p => p.pctDiff)).mergeSort
          (fun a b => a ≤ b) := List.filter_eq_self.mpr hall
    have hn : (((series.filterMap (fun p => p.pctDiff)).mergeSort
        (fun a b => a ≤ b)).length : ℚ) ≠ 0 := by
      rw [hperm.length_eq]
      exact Nat.cast_ne_zero.mpr (by omega)
    refine ⟨_, hpr series i pt v hget hv h3, ?_⟩
    simp only [hfull]
    field_simp
  · intro series i pt v hget hv h3 hmin hcount
    have hperm := List.mergeSort_perm (series.filterMap (fun p => p.pctDiff))
      (fun a b => a ≤ b)
    have hcnt : (((series.filterMap (fun p => p.pctDiff)).mergeSort
        (fun a b => a ≤ b)).filter (fun w => w ≤ v)).length = 1 := by
      rw [← List.countP_eq_length_filter, hperm.countP_eq]
      have hcongr := @List.countP_congr ℚ (fun w => decide (w ≤ v))
        (fun w => w == v) (series.filterMap (fun p => p.pctDiff)) ?_
      · rw [hcongr, ← List.count_eq_countP]
        exact hcount
      · intro w hw
        constructor
        · intro hle
          exact beq_iff_eq.mpr
            (le_antisymm (of_decide_eq_true hle) (hmin w hw))
        · intro heq
          exact decide_eq_true (le_of_eq (beq_iff_eq.mp heq))
    refine ⟨_, hpr series i pt v hget hv h3, ?_⟩
    simp only [hcnt, hperm.length_eq]
    have hn : ((series.filterMap (fun p => p.pctDiff)).length : ℚ) ≠ 0 :=
      Nat.cast_ne_zero.mpr (by omega)
    field_simp

/-- Claim C9, witness: the amended theorem applied to `[5, 5, 7]` at its
maximum (index 2, rank 100) and to `[5, 6, 7]` at its unique minimum
(index 0, rank 100/3). -/
theorem percentile_rank_extremes_witness :
    (∃ res, computePercentileRank
        [⟨"d0", some 5⟩, ⟨"d1", some 5⟩, ⟨"d2", some 7⟩] 2 = some res ∧
      res.percentile = 100) ∧
    (∃ res, computePercentileRank
        [⟨"d0", some 5⟩, ⟨"d1", some 6⟩, ⟨"d2", some 7⟩] 0 = some res ∧
      res.percentile = 100 / (([⟨"d0", some 5⟩, ⟨"d1", some 6⟩,
        ⟨"d2", some 7⟩] : List DeviationPoint).filterMap
          (fun p => p.pctDiff)).length) := by
  constructor
  · refine percentile_rank_extremes.1 _ 2 ⟨"d2", some 7⟩ 7 rfl rfl
      (by simp [List.filterMap]) ?_
    intro w hw
    simp [List.filterMap] at hw
    rcases hw with rfl | rfl | rfl <;> norm_num
  · refine percentile_rank_extremes.2 _ 0 ⟨"d0", some 5⟩ 5 rfl rfl
      (by simp [List.filterMap]) ?_ ?_
    · intro w hw
      simp [List.filterMap] at hw
      rcases hw with rfl | rfl | rfl <;> norm_num
    · simp [List.filterMap, List.count_cons, beq_iff_eq]

/-! ## Claim C10 -/

/-- A successful OLS fit uses exactly the input points: `n` is the input
length, necessarily at least 3. -/
theorem linearRegression_some_n (pts : List (ℚ × ℚ)) (r : RegressionResult)
    (h : linearRegression pts = some r) :
    r.n = pts.length ∧ 3 ≤ pts.length := by
  unfold linearRegression at h
  split_ifs at h with h1 h2 h3
  all_goals obtain rfl := (Option.some.inj h).symm
  all_goals exact ⟨rfl, by omega⟩

theorem trimmedLoop_length (threshold : ℚ) :
    ∀ (fuel : ℕ) (cur out : List (ℚ × ℚ)),
      trimmedLoop threshold fuel cur = some out → out.length ≤ cur.length := by
  intro fuel
  induction fuel with
  | zero =>
    intro cur out h
    obtain rfl := Option.some.inj h
    exact le_refl _
  | succ f ih =>
    intro cur out h
    simp only [trimmedLoop] at h
    rcases hreg : linearRegression cur with _ | reg
    · rw [hreg] at h
      exact absurd h (by simp)
    · rw [hreg] at h
      simp only at h
      split_ifs at h with hv hk
      · obtain rfl := Option.some.inj h
        exact le_refl _
      · obtain rfl := Option.some.inj h
        exact le_refl _
      · exact le_trans (ih _ _ h) (List.length_filter_le _ _)

theorem map_getD_range (l : List (ℚ × ℚ)) :
    (List.range l.length).map (fun i => l.getD i (0, 0)) = l := by
  apply List.ext_getElem
  · simp
  · intro i h1 h2
    simp only [List.getElem_map, List.getElem_range]
    exact List.getD_eq_getElem l (0, 0) h2

theorem zip_map_self (f : ℕ → ℚ × ℚ) (l : List ℕ) :
    (l.map f).zip l = l.map (fun i => (f i, i)) := by
  induction l with
  | nil => rfl
  | cons a t ih => simp [ih]

theorem filter_mem_of_sublist_nodup (l L : List ℕ) (h : l.Sublist L)
    (hnd : L.Nodup) : L.filter (fun a => a ∈ l) = l := by
  induction h with
  | slnil => rfl
  | cons a h ih =>
    rename_i l' L'
    have hnd' := (List.nodup_cons.mp hnd).2
    have hna : a ∉ L' := (List.nodup_cons.mp hnd).1
    have : a ∉ l' := fun hal => hna (h.subset hal)
    simp only [List.filter_cons, decide_eq_true_eq]
    rw [if_neg (by simpa using this)]
    exact ih hnd'
  | cons₂ a h ih =>
    rename_i l' L'
    have hnd' := (List.nodup_cons.mp hnd).2
    have hna : a ∉ L' := (List.nodup_cons.mp hnd).1
    simp only [List.filter_cons]
    rw [if_pos (by simp)]
    congr 1
    rw [List.filter_congr (fun x hx => ?_)]
    · exact ih hnd'
    · have hxa : x ≠ a := fun e => hna (e ▸ hx)
      simp [List.mem_cons, hxa]

theorem cooksLoop_invariant (thresholdMultiplier : ℚ) (pts : List (ℚ × ℚ)) :
    ∀ (fuel : ℕ) (idx : List ℕ) (out : List (ℚ × ℚ) × List ℕ),
      cooksLoop thresholdMultiplier fuel
          (idx.map (fun i => pts.getD i (0, 0))) idx = some out →
      idx.Sublist (List.range pts.length) →
      out.2.Sublist (List.range pts.length) ∧
        out.1 = out.2.map (fun i => pts.getD i (0, 0)) := by
  intro fuel
  induction fuel with
  | zero =>
    intro idx out h hsub
    obtain rfl := Option.some.inj h
    exact ⟨hsub, rfl⟩
  | succ f ih =>
    intro idx out h hsub
    simp only [cooksLoop] at h
    rcases hreg : linearRegression (idx.map (fun i => pts.getD i (0, 0))) with
      _ | reg
    · rw [hreg] at h
      exact absurd h (by simp)
    · rw [hreg] at h
      simp only at h
      split_ifs at h with hmse hssx hk
      · obtain rfl := Option.some.inj h
        exact ⟨hsub, rfl⟩
      · obtain rfl := Option.some.inj h
        exact ⟨hsub, rfl⟩
      · obtain rfl := Option.some.inj h
        exact ⟨hsub, rfl⟩
      · rw [zip_map_self] at h
        rw [List.filter_map, List.map_map, List.map_map] at h
        have hfst : ((fun p : (ℚ × ℚ) × ℕ => p.1) ∘
            fun i => (pts.getD i (0, 0), i)) = fun i => pts.getD i (0, 0) :=
          rfl
        have hsnd : ((fun p : (ℚ × ℚ) × ℕ => p.2) ∘
            fun i => (pts.getD i (0, 0), i)) = id := rfl
        rw [hfst, hsnd, List.map_id] at h
        exact ih _ out h ((List.filter_sublist idx).trans hsub)

/-- Claim C10: whenever trimmed or Cook's regression returns a result, `n`
satisfies `3 ≤ n ≤ nOriginal` with `nOriginal` the input length; and for
Cook's, the final fit is the OLS fit on the points at a subsequence `idx` of
the original positions with `removedIndices` exactly the complementary
positions, so `n + removedIndices.length = nOriginal`. -/
theorem trimmed_cooks_result_invariants (threshold thresholdMultiplier : ℚ)
    (maxIter : ℕ) (pts : List (ℚ × ℚ)) :
    (∀ t : TrimmedResult,
      linearRegressionTrimmed threshold maxIter pts = some t →
      3 ≤ t.n ∧ t.n ≤ t.nOriginal ∧ t.nOriginal = pts.length) ∧
    (∀ c : CooksResult,
      linearRegressionCooks thresholdMultiplier maxIter pts = some c →
      3 ≤ c.n ∧ c.n ≤ c.nOriginal ∧ c.nOriginal = pts.length ∧
      c.n + c.removedIndices.length = pts.length ∧
      ∃ idx : List ℕ, idx.Sublist (List.range pts.length) ∧
        idx.length = c.n ∧
        c.removedIndices
          = (List.range pts.length).filter (fun i => ¬ i ∈ idx) ∧
        linearRegression (idx.map (fun i => pts.getD i (0, 0)))
          = some ⟨c.slope, c.intercept, c.r2, c.n⟩) := by
  constructor
  · intro t ht
    unfold linearRegressionTrimmed at ht
    split_ifs at ht with h1
    rcases hloop : trimmedLoop threshold maxIter pts with _ | cur
    · rw [hloop] at ht
      simp at ht
    · rw [hloop] at ht
      simp only at ht
      obtain ⟨fr, hfr, rfl⟩ := Option.map_eq_some'.mp ht
      obtain ⟨hn, h3⟩ := linearRegression_some_n cur fr hfr
      have hle := trimmedLoop_length threshold maxIter pts cur hloop
      exact ⟨by simp [hn]; omega, by simp [hn]; omega, rfl⟩
  · intro c hc
    unfold linearRegressionCooks at hc
    split_ifs at hc with h1
    rcases hloop : cooksLoop thresholdMultiplier maxIter pts
        (List.range pts.length) with _ | out
    · rw [hloop] at hc
      simp at hc
    · obtain ⟨cur, idx⟩ := out
      rw [hloop] at hc
      simp only at hc
      obtain ⟨fr, hfr, rfl⟩ := Option.map_eq_some'.mp hc
      have hloop' : cooksLoop thresholdMultiplier maxIter
          ((List.range pts.length).map (fun i => pts.getD i (0, 0)))
          (List.range pts.length) = some (cur, idx) := by
        rw [map_getD_range]
        exact hloop
      obtain ⟨hsub, hcur⟩ := cooksLoop_invariant thresholdMultiplier pts
        maxIter (List.range pts.length) (cur, idx) hloop'
        (List.Sublist.refl _)
      dsimp only at hsub hcur
      obtain ⟨hn, h3⟩ := linearRegression_some_n cur fr hfr
      have hlen : cur.length = idx.length := by
        rw [hcur, List.length_map]
      have hidxle : idx.length ≤ pts.length := by
        simpa using hsub.length_le
      have hmem : (List.range pts.length).filter (fun i => i ∈ idx) = idx :=
        filter_mem_of_sublist_nodup idx (List.range pts.length) hsub
          (List.nodup_range pts.length)
      have hsplit := @List.length_eq_length_filter_add ℕ
        (List.range pts.length) (fun i => decide (i ∈ idx))
      have hcompl : (List.range pts.length).filter
          (fun i => !(decide (i ∈ idx)))
          = (List.range pts.length).filter (fun i => ¬ i ∈ idx) := by
        apply List.filter_congr
        intro x _
        simp [decide_not]
      have hcount : pts.length
          = idx.length
            + ((List.range pts.length).filter
                (fun i => ¬ i ∈ idx)).length := by
        have h0 := hsplit
        rw [hcompl] at h0
        simpa [hmem] using h0
      refine ⟨?_, ?_, rfl, ?_, idx, hsub, ?_, rfl, ?_⟩
      · dsimp only
        omega
      · dsimp only
        omega
      · dsimp only
        omega
      · dsimp only
        omega
      · dsimp only
        rw [← hcur]
        exact hfr

/-- Claim C10, witness: the invariants instantiated on a 3-point line for
both estimators. -/
theorem trimmed_cooks_result_invariants_witness :
    (∃ t : TrimmedResult,
      linearRegressionTrimmed 2 2 [((0 : ℚ), 1), (1, 3), (2, 5)] = some t ∧
      3 ≤ t.n ∧ t.n ≤ t.nOriginal ∧ t.nOriginal = 3) ∧
    (∃ c : CooksResult,
      linearRegressionCooks 1 2 [((0 : ℚ), 0), (1, 1), (2, 2)] = some c ∧
      3 ≤ c.n ∧ c.n + c.removedIndices.length = 3) := by
  have ht : linearRegressionTrimmed 2 2 [((0 : ℚ), 1), (1, 3), (2, 5)]
      = some ⟨2, 1, 1, 3, 3⟩ := by
    norm_num [linearRegressionTrimmed, trimmedLoop, linearRegression,
      residualsOf, meanOf, varianceOf, slopeOf, interceptOf, sstOf, sseOf,
      dOf, sxOf, syOf, sxyOf, sx2Of, sy2Of, tiny]
  have hck : linearRegressionCooks 1 2 [((0 : ℚ), 0), (1, 1), (2, 2)]
      = some ⟨1, 0, 1, 3, 3, []⟩ := by
    norm_num [linearRegressionCooks, cooksLoop, linearRegression, mseOf,
      residualsOf, tiny, dOf, sxOf, syOf, sxyOf, sx2Of, sy2Of, slopeOf,
      interceptOf, sstOf, sseOf]
  constructor
  · obtain ⟨a, b, -⟩ := (trimmed_cooks_result_invariants 2 1 2 _).1 _ ht
    exact ⟨_, ht, a, b, by simp⟩
  · obtain ⟨a, -, -, -, -⟩ :=
      (trimmed_cooks_result_invariants 2 1 2 _).2 _ hck
    exact ⟨_, hck, a, by simp⟩

/-! ## Claim C6 -/

/-- On the flat dataset each date's trimmed fit succeeds with R² = 0 (all
multiples equal, so SST = 0). -/
theorem periodFit_dataFlat :
    periodFit dataFlat .evRev ["A", "B", "C"] none none none none 0
      = some ⟨0, 1, 0, 3, 3⟩ := by
  have hpts : filterPoints dataFlat .evRev 0 ["A", "B", "C"]
      none none none none = [⟨0, 1, "A"⟩, ⟨1, 1, "B"⟩, ⟨2, 1, "C"⟩] := by
    have e1 : (MetricType.evRev = MetricType.pEPS) = False :=
      eq_false (by decide)
    have sBA : (("B" : String) = "A") = False := eq_false (by decide)
    have sCA : (("C" : String) = "A") = False := eq_false (by decide)
    have sCB : (("C" : String) = "B") = False := eq_false (by decide)
    have hall1 : ∀ (c : ℚ),
        (∀ x : ℚ, (none : Option ℚ) = some x → x ≤ c) = True := by
      intro c
      apply eq_true
      intro x h
      cases h
    have hall2 : ∀ (c : ℚ),
        (∀ x : ℚ, (none : Option ℚ) = some x → c ≤ x) = True := by
      intro c
      apply eq_true
      intro x h
      cases h
    norm_num [filterPoints, pointFor, dataFlat, evRevRow, getv,
      multipleSeries, growthSeries, rgBoundOk, xgBoundOk, okEps,
      List.filterMap, e1, sBA, sCA, sCB, hall1, hall2]
  unfold periodFit
  rw [hpts]
  norm_num [linearRegressionTrimmed, trimmedLoop, linearRegression,
    residualsOf, meanOf, varianceOf, slopeOf, interceptOf, sstOf, sseOf,
    dOf, sxOf, syOf, sxyOf, sx2Of, sy2Of, tiny]


/-- Claim C6: the R²-weighted baseline gives no weight to a period whose fit
has `R² ≤ 0`; when every (non-excluded) period's fit has `R² ≤ 0`, it returns
no baseline, while the equal-weight baseline on the same inputs still returns
one provided some period's fit succeeded. -/
theorem weighted_baseline_skips_nonpositive_r2 (data : DashboardData)
    (type : MetricType) (activeTickers : List String)
    (b1 b2 b3 b4 : Option ℚ) (excludeYear : Option ℤ)
    (hall : ∀ di ∈ List.range data.dates.length,
      ¬ yearExcluded excludeYear (data.dates.getD di "") = true →
      ∀ r, periodFit data type activeTickers b1 b2 b3 b4 di = some r →
        r.r2 ≤ 0)
    (hex : ∃ di ∈ List.range data.dates.length,
      ¬ yearExcluded excludeYear (data.dates.getD di "") = true ∧
      (periodFit data type activeTickers b1 b2 b3 b4 di).isSome) :
    computeHistoricalBaselineWeighted data type activeTickers b1 b2 b3 b4
      excludeYear = none ∧
    (computeHistoricalBaseline data type activeTickers b1 b2 b3 b4
      excludeYear).isSome := by
  constructor
  · unfold computeHistoricalBaselineWeighted
    have hnil : (List.range data.dates.length).filterMap (fun di =>
        if yearExcluded excludeYear (data.dates.getD di "") then none
        else match periodFit data type activeTickers b1 b2 b3 b4 di with
        | none => none
        | some r => if r.r2 ≤ 0 then none else some r) = [] := by
      rw [List.filterMap_eq_nil_iff]
      intro di hdi
      by_cases hex2 : yearExcluded excludeYear (data.dates.getD di "") = true
      · rw [if_pos hex2]
      · rw [if_neg hex2]
        rcases hfit : periodFit data type activeTickers b1 b2 b3 b4 di with
          _ | r
        · simp only [hfit]
        · have hr2 := hall di hdi hex2 r hfit
          simp only [hfit]
          rw [if_pos hr2]
    rw [hnil]
    simp
  · unfold computeHistoricalBaseline
    obtain ⟨di, hdi, hnotex, hsome⟩ := hex
    obtain ⟨r, hr⟩ := Option.isSome_iff_exists.mp hsome
    have hmem : r ∈ (List.range data.dates.length).filterMap (fun di =>
        if yearExcluded excludeYear (data.dates.getD di "") then none
        else periodFit data type activeTickers b1 b2 b3 b4 di) := by
      rw [List.mem_filterMap]
      exact ⟨di, hdi, by rw [if_neg hnotex]; exact hr⟩
    have hne : ((List.range data.dates.length).filterMap (fun di =>
        if yearExcluded excludeYear (data.dates.getD di "") then none
        else periodFit data type activeTickers b1 b2 b3 b4 di)).length ≠ 0 :=
      by
        intro h0
        rw [List.length_eq_zero] at h0
        rw [h0] at hmem
        exact absurd hmem (List.not_mem_nil r)
    rw [if_neg (by omega)]
    simp


/-- Claim C6, witness: on the flat dataset every period fit has R² = 0, the
weighted baseline is `none`, and the equal-weight baseline is present. -/
theorem weighted_baseline_witness :
    computeHistoricalBaselineWeighted dataFlat .evRev ["A", "B", "C"]
      none none none none none = none ∧
    (computeHistoricalBaseline dataFlat .evRev ["A", "B", "C"]
      none none none none none).isSome := by
  apply weighted_baseline_skips_nonpositive_r2
  · intro di hdi hne r hr
    have hdi0 : di = 0 := by
      simpa [dataFlat] using hdi
    subst hdi0
    rw [periodFit_dataFlat] at hr
    obtain rfl := Option.some.inj hr
    norm_num
  · refine ⟨0, by simp [dataFlat], by simp [yearExcluded], ?_⟩
    rw [periodFit_dataFlat]
    rfl


/-! ## Claim C7 -/

theorem dcfLoop_fst (inputs : DcfInputs) :
    ∀ N, (dcfLoop inputs N).1 = epsAt inputs N := by
  intro N
  induction N with
  | zero => rfl
  | succ y ih => simp only [dcfLoop, epsAt, ih]

theorem dcfLoop_sumPv (inputs : DcfInputs) :
    ∀ N, (dcfLoop inputs N).2.1 = ∑ y ∈ Finset.range N,
      epsAt inputs (y + 1) * (1 / (1 + inputs.discountRate) ^ (y + 1)) := by
  intro N
  induction N with
  | zero => simp [dcfLoop]
  | succ y ih =>
    rw [Finset.sum_range_succ, ← ih]
    simp only [dcfLoop, epsAt, dcfLoop_fst]

theorem epsAt_congr (i1 i2 : DcfInputs) (hfe : i1.forwardEps = i2.forwardEps)
    (hg : i1.epsGrowth = i2.epsGrowth)
    (ht : i1.terminalGrowth = i2.terminalGrowth)
    (hf : i1.fadePeriod = i2.fadePeriod) :
    ∀ y, epsAt i1 y = epsAt i2 y := by
  intro y
  induction y with
  | zero => simp [epsAt, hfe]
  | succ n ih => simp [epsAt, ih, hg, ht, hf]

theorem computeDcf_impliedPe (inputs : DcfInputs)
    (h1 : 0 < inputs.forwardEps) (h2 : 0 < inputs.currentPe)
    (h3 : inputs.terminalGrowth < inputs.discountRate) :
    ∃ res, computeDcf inputs = some res ∧
      res.impliedPe = ((∑ y ∈ Finset.range inputs.projectionYears,
        epsAt inputs (y + 1) * (1 / (1 + inputs.discountRate) ^ (y + 1)))
        + epsAt inputs inputs.projectionYears * (1 + inputs.terminalGrowth)
          / (inputs.discountRate - inputs.terminalGrowth)
          / (1 + inputs.discountRate) ^ inputs.projectionYears)
        / inputs.forwardEps := by
  unfold computeDcf
  rw [if_neg (not_le.mpr h1), if_neg (not_le.mpr h2), if_neg (not_le.mpr h3)]
  refine ⟨_, rfl, ?_⟩
  dsimp only
  rw [dcfLoop_sumPv, dcfLoop_fst]

theorem fadeBase_pos (y : ℚ) :
    0 < 1 + fadeGrowthRate y (15 / 100) (3 / 100) 5 := by
  unfold fadeGrowthRate
  split_ifs with hf hy hyf
  · norm_num
  · norm_num
  · norm_num
  · push_neg at hy hyf
    nlinarith

theorem epsAt_base_pos (d : ℚ) : ∀ y, 0 < epsAt (baseDcf d) y := by
  intro y
  induction y with
  | zero => norm_num [epsAt, baseDcf]
  | succ n ih =>
    have hfade := fadeBase_pos ((n : ℚ) + 1)
    simp only [epsAt, baseDcf] at ih hfade ⊢
    exact mul_pos ih hfade

/-- Claim C7: with the base-case inputs (`terminalGrowth = 0.03`,
`forwardEps = 5`, `currentPe = 20`, `epsGrowth = 0.15`,
`projectionYears = 10`, `fadePeriod = 5`) fixed, the implied P/E is strictly
larger at the smaller of two discount rates above the terminal growth:
`impliedPe` increases monotonically as the discount rate falls toward
`terminalGrowth`. -/
theorem dcf_impliedPe_monotone (d1 d2 : ℚ) (htg : 3 / 100 < d2)
    (hd : d2 < d1) :
    ∃ r1 r2, computeDcf (baseDcf d1) = some r1 ∧
      computeDcf (baseDcf d2) = some r2 ∧ r1.impliedPe < r2.impliedPe := by
  have htg1 : (3 : ℚ) / 100 < d1 := lt_trans htg hd
  obtain ⟨r1, hr1, hpe1⟩ := computeDcf_impliedPe (baseDcf d1)
    (by norm_num [baseDcf]) (by norm_num [baseDcf])
    (by simpa [baseDcf] using htg1)
  obtain ⟨r2, hr2, hpe2⟩ := computeDcf_impliedPe (baseDcf d2)
    (by norm_num [baseDcf]) (by norm_num [baseDcf])
    (by simpa [baseDcf] using htg)
  refine ⟨r1, r2, hr1, hr2, ?_⟩
  rw [hpe1, hpe2]
  have hb2 : (0 : ℚ) < 1 + d2 := by linarith
  have hb1 : (1 : ℚ) + d2 < 1 + d1 := by linarith
  have hE := epsAt_base_pos d2
  have hcongrE : ∀ y, epsAt (baseDcf d1) y = epsAt (baseDcf d2) y :=
    epsAt_congr (baseDcf d1) (baseDcf d2) rfl rfl rfl rfl
  have hp1 : (baseDcf d1).projectionYears = 10 := rfl
  have hp2 : (baseDcf d2).projectionYears = 10 := rfl
  have hdr1 : (baseDcf d1).discountRate = d1 := rfl
  have hdr2 : (baseDcf d2).discountRate = d2 := rfl
  have hfe1 : (baseDcf d1).forwardEps = 5 := rfl
  have hfe2 : (baseDcf d2).forwardEps = 5 := rfl
  have htgr1 : (baseDcf d1).terminalGrowth = 3 / 100 := rfl
  have htgr2 : (baseDcf d2).terminalGrowth = 3 / 100 := rfl
  rw [hp1, hp2, hdr1, hdr2, hfe1, hfe2, htgr1, htgr2]
  have hsums : ∑ y ∈ Finset.range 10,
      epsAt (baseDcf d1) (y + 1) * (1 / (1 + d1) ^ (y + 1))
      = ∑ y ∈ Finset.range 10,
        epsAt (baseDcf d2) (y + 1) * (1 / (1 + d1) ^ (y + 1)) :=
    Finset.sum_congr rfl (fun y _ => by rw [hcongrE (y + 1)])
  rw [hsums, hcongrE 10]
  apply div_lt_div_of_pos_right ?_ (by norm_num)
  apply add_lt_add
  · apply Finset.sum_lt_sum_of_nonempty (Finset.nonempty_range_iff.mpr
      (by norm_num))
    intro y hy
    apply mul_lt_mul_of_pos_left ?_ (hE (y + 1))
    exact div_lt_div_of_pos_left one_pos (pow_pos hb2 _)
      (pow_lt_pow_left₀ hb1 (le_of_lt hb2) (Nat.succ_ne_zero y))
  · have hEpos : 0 < epsAt (baseDcf d2) 10 * (1 + 3 / 100) :=
      mul_pos (hE 10) (by norm_num)
    calc epsAt (baseDcf d2) 10 * (1 + 3 / 100) / (d1 - 3 / 100)
          / (1 + d1) ^ 10
        < epsAt (baseDcf d2) 10 * (1 + 3 / 100) / (d2 - 3 / 100)
          / (1 + d1) ^ 10 := by
          apply div_lt_div_of_pos_right ?_ (pow_pos (by linarith) 10)
          exact div_lt_div_of_pos_left hEpos (by linarith) (by linarith)
      _ < epsAt (baseDcf d2) 10 * (1 + 3 / 100) / (d2 - 3 / 100)
          / (1 + d2) ^ 10 :=
          div_lt_div_of_pos_left (div_pos hEpos (by linarith))
            (pow_pos hb2 10)
            (pow_lt_pow_left₀ hb1 (le_of_lt hb2) (by norm_num))

/-- Claim C7, witness: the base case at discount rates 10 % and 8 %. -/
theorem dcf_impliedPe_monotone_witness :
    ∃ r1 r2, computeDcf (baseDcf (1 / 10)) = some r1 ∧
      computeDcf (baseDcf (8 / 100)) = some r2 ∧
      r1.impliedPe < r2.impliedPe :=
  dcf_impliedPe_monotone (1 / 10) (8 / 100) (by norm_num) (by norm_num)

/-! ## Claim C8 -/

/-- What a passing `okEps` gate guarantees. -/
theorem okEps_spec (data : DashboardData) (ticker : String) (di : ℕ)
    (h : okEps data ticker di = true) :
    ∃ d, data.fm ticker = some d ∧
      ∃ fe, getv d.fe di = some fe ∧ 1 / 2 < fe ∧
      ∃ xg, getv d.xg di = some xg ∧ -(3 / 4) < xg ∧ xg ≤ 2 := by
  unfold okEps at h
  rcases hfm : data.fm ticker with _ | d
  · rw [hfm] at h
    cases h
  · rw [hfm] at h
    simp only at h
    rcases hfe : getv d.fe di with _ | fe
    · simp only [hfe] at h
      cases h
    · rcases hxg : getv d.xg di with _ | xg
      · simp only [hfe, hxg] at h
        cases h
      · simp only [hfe, hxg] at h
        split_ifs at h with e1 e2 e3
        push_neg at e1 e2 e3
        exact ⟨d, rfl, fe, hfe, e1, xg, hxg, by linarith, e3⟩

/-- What producing a scatter point guarantees: the point carries its ticker,
respects the metric's cap, and (for Price/EPS) passed the `okEps` gate. -/
theorem pointFor_conditions (data : DashboardData) (type : MetricType)
    (di : ℕ) (b1 b2 b3 b4 : Option ℚ) (t : String) (pt : ScatterPoint)
    (h : pointFor data type di b1 b2 b3 b4 t = some pt) :
    pt.t = t ∧ pt.y ≤ capOf type ∧
      (type = .pEPS → okEps data t di = true) := by
  unfold pointFor at h
  rcases hfm : data.fm t with _ | d
  · rw [hfm] at h
    cases h
  · rw [hfm] at h
    simp only at h
    rcases hm : getv (multipleSeries type d) di with _ | m
    · simp only [hm] at h
      cases h
    · rcases hg : getv (growthSeries type d) di with _ | g
      · simp only [hm, hg] at h
        cases h
      · simp only [hm, hg] at h
        split_ifs at h with e1 e2 e3 e4 e5
        obtain rfl := (Option.some.inj h).symm
        refine ⟨rfl, ?_, ?_⟩
        · cases type with
          | evRev =>
            simp only [capOf]
            by_contra hgt
            push_neg at hgt
            exact e3 ⟨rfl, hgt⟩
          | evGP =>
            simp only [capOf]
            by_contra hgt
            push_neg at hgt
            exact e4 ⟨rfl, hgt⟩
          | pEPS =>
            simp only [capOf]
            by_contra hgt
            push_neg at hgt
            exact e2 ⟨rfl, hgt⟩
        · intro hty
          subst hty
          by_contra hok
          exact e1 ⟨rfl, by simpa using hok⟩

/-- The same guards hold for a successful single-ticker score. -/
theorem singleScore_conditions (data : DashboardData) (ticker : String)
    (type : MetricType) (di : ℕ) (baseline : HistoricalBaseline)
    (s : SingleTickerScore)
    (h : computeSingleTickerScore data ticker type di baseline = some s) :
    s.actual ≤ capOf type ∧ (type = .pEPS → okEps data ticker di = true) := by
  unfold computeSingleTickerScore at h
  rcases hfm : data.fm ticker with _ | d
  · rw [hfm] at h
    cases h
  · rw [hfm] at h
    simp only at h
    rcases hm : getv (multipleSeries type d) di with _ | m
    · simp only [hm] at h
      cases h
    · rcases hg : getv (growthSeries type d) di with _ | g
      · simp only [hm, hg] at h
        cases h
      · simp only [hm, hg] at h
        rcases hfe : getv d.fe di with _ | fe
        · simp only [hfe] at h
          cases h
        · simp only [hfe] at h
          split_ifs at h with e1 e2 e3 e4 e5 e6
          obtain rfl := (Option.some.inj h).symm
          constructor
          · cases type with
            | evRev =>
              simp only [capOf]
              by_contra hgt
              push_neg at hgt
              exact e4 ⟨rfl, hgt⟩
            | evGP =>
              simp only [capOf]
              by_contra hgt
              push_neg at hgt
              exact e5 ⟨rfl, hgt⟩
            | pEPS =>
              simp only [capOf]
              by_contra hgt
              push_neg at hgt
              exact e3 ⟨rfl, Or.inr hgt⟩
          · intro hty
            subst hty
            by_contra hok
            exact e3 ⟨rfl, Or.inl (by simpa using hok)⟩

/-- Claim C8: a ticker usable for Price/EPS — included by the universe
filter or scored — has forward EPS `> 0.5` and EPS growth in `(-0.75, 2]`;
and for every metric, any included or scored ticker's multiple is within
its cap (EV/Revenue ≤ 80, EV/GrossProfit ≤ 120, Price/EPS ≤ 200), i.e. a
ticker exceeding the cap is dropped. -/
theorem pEPS_usability_and_caps :
    (∀ (data : DashboardData) (di : ℕ) (tickers : List String)
      (b1 b2 b3 b4 : Option ℚ) (pt : ScatterPoint),
      pt ∈ filterPoints data .pEPS di tickers b1 b2 b3 b4 →
      ∃ d, data.fm pt.t = some d ∧
        ∃ fe, getv d.fe di = some fe ∧ 1 / 2 < fe ∧
        ∃ xg, getv d.xg di = some xg ∧ -(3 / 4) < xg ∧ xg ≤ 2) ∧
    (∀ (data : DashboardData) (type : MetricType) (di : ℕ)
      (tickers : List String) (b1 b2 b3 b4 : Option ℚ) (pt : ScatterPoint),
      pt ∈ filterPoints data type di tickers b1 b2 b3 b4 →
      pt.y ≤ capOf type) ∧
    (∀ (data : DashboardData) (ticker : String) (type : MetricType) (di : ℕ)
      (baseline : HistoricalBaseline) (s : SingleTickerScore),
      computeSingleTickerScore data ticker type di baseline = some s →
      s.actual ≤ capOf type ∧
      (type = .pEPS → ∃ d, data.fm ticker = some d ∧
        ∃ fe, getv d.fe di = some fe ∧ 1 / 2 < fe ∧
        ∃ xg, getv d.xg di = some xg ∧ -(3 / 4) < xg ∧ xg ≤ 2)) := by
  refine ⟨?_, ?_, ?_⟩
  · intro data di tickers b1 b2 b3 b4 pt hmem
    obtain ⟨t, -, hpf⟩ := List.mem_filterMap.mp hmem
    obtain ⟨htt, -, hok⟩ := pointFor_conditions data .pEPS di b1 b2 b3 b4 t
      pt hpf
    rw [htt]
    exact okEps_spec data t di (hok rfl)
  · intro data type di tickers b1 b2 b3 b4 pt hmem
    obtain ⟨t, -, hpf⟩ := List.mem_filterMap.mp hmem
    exact (pointFor_conditions data type di b1 b2 b3 b4 t pt hpf).2.1
  · intro data ticker type di baseline s hs
    obtain ⟨hcap, hok⟩ := singleScore_conditions data ticker type di
      baseline s hs
    exact ⟨hcap, fun hty => okEps_spec data ticker di (hok hty)⟩

/-- Claim C8, witness: a concrete Price/EPS ticker (multiple 10, EPS growth
3 %, forward EPS 1) that passes the filter and the scorer. -/
theorem pEPS_usability_and_caps_witness :
    (∃ d, dataEps.fm "A" = some d ∧
      ∃ fe, getv d.fe 0 = some fe ∧ 1 / 2 < fe ∧
      ∃ xg, getv d.xg 0 = some xg ∧ -(3 / 4) < xg ∧ xg ≤ 2) ∧
    ((⟨3, 10, "A"⟩ : ScatterPoint).y ≤ capOf .pEPS) ∧
    ((⟨3, 10, 4, 150⟩ : SingleTickerScore).actual ≤ capOf .pEPS) := by
  have hall0 : ∀ (p : ℚ → Prop),
      (∀ x : ℚ, (none : Option ℚ) = some x → p x) = True := by
    intro p
    apply eq_true
    intro x hx
    cases hx
  have hex0 : ∀ (p : ℚ → Prop),
      (∃ x, (none : Option ℚ) = some x ∧ p x) = False := by
    intro p
    apply eq_false
    rintro ⟨x, hx, -⟩
    cases hx
  have hpt : pointFor dataEps .pEPS 0 none none none none "A"
      = some ⟨3, 10, "A"⟩ := by
    norm_num [pointFor, dataEps, getv, multipleSeries, growthSeries,
      rgBoundOk, xgBoundOk, okEps, hall0, hex0]
  have hmem : (⟨3, 10, "A"⟩ : ScatterPoint)
      ∈ filterPoints dataEps .pEPS 0 ["A"] none none none none := by
    unfold filterPoints
    rw [List.mem_filterMap]
    exact ⟨"A", by simp, hpt⟩
  have hscore : computeSingleTickerScore dataEps "A" .pEPS 0 ⟨1, 1, 1, 1, 1⟩
      = some ⟨3, 10, 4, 150⟩ := by
    norm_num [computeSingleTickerScore, dataEps, getv, multipleSeries,
      growthSeries, okEps, hall0, hex0]
  refine ⟨?_, ?_, ?_⟩
  · have h := pEPS_usability_and_caps.1 dataEps 0 ["A"] none none none none
      ⟨3, 10, "A"⟩ hmem
    simpa using h
  · exact pEPS_usability_and_caps.2.1 dataEps .pEPS 0 ["A"]
      none none none none ⟨3, 10, "A"⟩ hmem
  · exact (pEPS_usability_and_caps.2.2 dataEps "A" .pEPS 0 ⟨1, 1, 1, 1, 1⟩
      ⟨3, 10, 4, 150⟩ hscore).1

end ValuationAgent
